import Mathlib

/-!
Verification of the Minesweeper game engine in `src/Kasianova-Kate/script.js`.

The JavaScript engine is shallowly embedded: the 2D board array becomes
`List (List Cell)`, in-place mutation becomes functional update, and the
JavaScript runtime error raised by an out-of-bounds `game.board[r][c]` access
(`undefined` dereference) is modelled by `Option`: `none` means the call threw.
`Math.random()`-driven mine placement is modelled by an explicit list of picks
(the outcomes of the random source); the unbounded retry `while` loop consumes
one pick per iteration, so "the loop never finishes, whatever the random
source does" becomes "the placement returns `none` on every finite pick list".
-/

namespace Minesweeper

/-- `state` field of a cell: `"closed"`, `"open"` or `"flagged"` in the JS. -/
inductive CellState where
  | closed
  | «open»
  | flagged
deriving DecidableEq, Repr

/-- `status` field of the game: `"in-progress"`, `"win"` or `"lose"` in the JS. -/
inductive GStatus where
  | inProgress
  | win
  | lose
deriving DecidableEq, Repr

/-- `createCell` (script.js:6): one grid cell. -/
structure Cell where
  hasMine : Bool
  neighborMines : Nat
  state : CellState
deriving DecidableEq, Repr

/-- The 2D board array `object[][]` of the JS. -/
abbrev Board := List (List Cell)

/-- The game-state object returned by `createGame` (script.js:92). -/
structure Game where
  rows : Nat
  cols : Nat
  mines : Nat
  status : GStatus
  board : Board
deriving DecidableEq, Repr

/-- `board[r][c]` as a partial lookup: `none` models the JS `TypeError`
raised by dereferencing `undefined` when `(r,c)` is out of bounds. -/
def cell? (b : Board) (r c : Nat) : Option Cell :=
  (b[r]?).bind fun row => row[c]?

/-- Functional image of the in-place assignment `board[r][c] = cell`
(a no-op when the row does not exist, matching `List.set`). -/
def setCell (b : Board) (r c : Nat) (cell : Cell) : Board :=
  match b[r]? with
  | none => b
  | some row => b.set r (row.set c cell)

/-- `board[r][c].hasMine` guarded by existence (used where the JS loop bounds
already guarantee the access is in range). -/
def hasMineAt (b : Board) (r c : Nat) : Bool :=
  match cell? b r c with
  | some cell => cell.hasMine
  | none => false

/-- `board[0].length` — the JS column count read off the first row. -/
def cols0 (b : Board) : Nat :=
  ((b[0]?).getD []).length

/-- `createCell` (script.js:6): `hasMine` as given, `neighborMines = 0`,
`state = "closed"`. -/
def createCell (hasMine : Bool) : Cell :=
  { hasMine := hasMine, neighborMines := 0, state := CellState.closed }

/-- The `(dr, dc)` pairs visited by the JS double loop
`for dr in -1..1, for dc in -1..1, skipping (0,0)` (script.js:24 and 307). -/
def adjOffsets : List (Int × Int) :=
  [(-1, -1), (-1, 0), (-1, 1), (0, -1), (0, 1), (1, -1), (1, 0), (1, 1)]

/-- `countAdjacentMines` (script.js:22): number of in-bounds 8-neighbors with
`hasMine = true`; bounds are checked against `board.length` and
`board[0].length` exactly as in the JS. -/
def countAdjacentMines (b : Board) (row col : Nat) : Nat :=
  adjOffsets.countP fun d =>
    let nr : Int := (row : Int) + d.1
    let nc : Int := (col : Int) + d.2
    decide (0 ≤ nr) && decide (nr < (b.length : Int)) &&
      decide (0 ≤ nc) && decide (nc < (cols0 b : Int)) &&
      hasMineAt b nr.toNat nc.toNat

/-- `createBoard` step 1 (script.js:52): `rows` rows of `cols` fresh closed
cells. -/
def initBoard (rows cols : Nat) : Board :=
  List.replicate rows (List.replicate cols (createCell false))

/-- `board[r][c].hasMine = true` at an existing cell (no-op otherwise). -/
def setMineAt (b : Board) (r c : Nat) : Board :=
  match cell? b r c with
  | some cell => setCell b r c { cell with hasMine := true }
  | none => b

/-- `createBoard` step 2 (script.js:61): the `while (placedMines < minesCount)`
retry loop. Each iteration consumes one outcome `(pr, pc)` of the random
source; `pr % rows` mirrors `Math.floor(Math.random() * rows)` always landing
in `[0, rows)`. `none` means the pick supply ran out before the loop finished —
over all finite pick lists this models non-termination of the JS loop. -/
def placeMines (rows cols : Nat) : List (Nat × Nat) → Board → Nat → Option Board
  | _, b, 0 => some b
  | [], _, _ + 1 => none
  | (pr, pc) :: rest, b, rem + 1 =>
    let r := pr % rows
    let c := pc % cols
    if hasMineAt b r c then placeMines rows cols rest b (rem + 1)
    else placeMines rows cols rest (setMineAt b r c) rem

/-- Helper for `countNeighbors`: map a function of the column index over a row
starting at column index `k`. -/
def mapRowFrom (f : Nat → Cell → Cell) (k : Nat) : List Cell → List Cell
  | [] => []
  | cell :: rest => f k cell :: mapRowFrom f (k + 1) rest

/-- Helper for `countNeighbors`: map a function of the (row, col) indices over
the board starting at row index `k`. -/
def mapBoardFrom (f : Nat → Nat → Cell → Cell) (k : Nat) : Board → Board
  | [] => []
  | row :: rest => mapRowFrom (f k) 0 row :: mapBoardFrom f (k + 1) rest

/-- `createBoard` step 3 (script.js:72): for each non-mine cell set
`neighborMines = countAdjacentMines(board, r, c)`. The JS mutates in place but
only ever writes `neighborMines`, which `countAdjacentMines` never reads, so
mapping over the post-placement board is an exact image. -/
def countNeighbors (b : Board) : Board :=
  mapBoardFrom
    (fun r c cell =>
      if cell.hasMine then cell
      else { cell with neighborMines := countAdjacentMines b r c })
    0 b

/-- `createBoard` (script.js:48), with the random source supplied as `picks`. -/
def createBoard (rows cols minesCount : Nat) (picks : List (Nat × Nat)) :
    Option Board :=
  (placeMines rows cols picks (initBoard rows cols) minesCount).map countNeighbors

/-- `createGame` (script.js:92). -/
def createGame (rows cols mines : Nat) (picks : List (Nat × Nat)) : Option Game :=
  (createBoard rows cols mines picks).map fun b =>
    { rows := rows, cols := cols, mines := mines,
      status := GStatus.inProgress, board := b }

/-- `getFlagCount` (script.js:201): number of cells with `state === 'flagged'`.
The JS iterates `r < game.rows, c < game.cols` over the board it owns; counting
over the rows is the same traversal. -/
def getFlagCount (g : Game) : Nat :=
  (g.board.map fun row => row.countP fun cell =>
    cell.state == CellState.flagged).sum

/-- The value displayed by `updateMinesCounter` (script.js:218):
`Math.max(0, game.mines - getFlagCount())`, over JS numbers, hence `Int`. -/
def remainingMines (g : Game) : Int :=
  max 0 ((g.mines : Int) - (getFlagCount g : Int))

/-- Number of cells with `state = "closed"` — the measure that bounds the
number of open-steps the flood loop can take. -/
def closedCount (b : Board) : Nat :=
  (b.map fun row => row.countP fun cell => cell.state == CellState.closed).sum

/-- The coordinates pushed by the inner double loop of `floodOpen`
(script.js:307–315): in-bounds 8-neighbors of `(cr, cc)` whose cell is closed
and not a mine, in JS iteration order. Bounds are checked against the
`rows`/`cols` of the game (`inBounds`, script.js:288). -/
def floodNbrs (rows cols : Nat) (b : Board) (cr cc : Nat) : List (Nat × Nat) :=
  adjOffsets.filterMap fun d =>
    let nr : Int := (cr : Int) + d.1
    let nc : Int := (cc : Int) + d.2
    if 0 ≤ nr ∧ nr < (rows : Int) ∧ 0 ≤ nc ∧ nc < (cols : Int) then
      match cell? b nr.toNat nc.toNat with
      | some cell =>
        if cell.state = CellState.closed ∧ cell.hasMine = false then
          some (nr.toNat, nc.toNat)
        else none
      | none => none
    else none

/-- The `while (stack.length)` loop of `floodOpen` (script.js:301–317), with
explicit fuel (structural recursion; adequacy of the fuel is proved below).
The stack is kept top-first, so the JS `stack.pop()` is the head and the eight
`stack.push(...)`s prepend the neighbour list reversed. `none` is fuel
exhaustion or an out-of-bounds pop (neither occurs in real runs). -/
def floodLoopF (rows cols : Nat) : Nat → Board → List (Nat × Nat) → Option Board
  | 0, _, _ => none
  | _ + 1, b, [] => some b
  | fuel + 1, b, (cr, cc) :: rest =>
    match cell? b cr cc with
    | none => none
    | some cell =>
      if cell.state ≠ CellState.closed ∨ cell.hasMine then
        floodLoopF rows cols fuel b rest
      else
        let b' := setCell b cr cc { cell with state := CellState.«open» }
        if cell.neighborMines = 0 then
          floodLoopF rows cols fuel b' ((floodNbrs rows cols b' cr cc).reverse ++ rest)
        else
          floodLoopF rows cols fuel b' rest

/-- `floodOpen` (script.js:299): run the work-list loop from the seed with
enough fuel (each iteration either opens a closed cell, adding at most eight
stack entries, or just pops one, so `9 * closedCount + 2` always suffices). -/
def floodOpen (rows cols : Nat) (b : Board) (r c : Nat) : Option Board :=
  floodLoopF rows cols (9 * closedCount b + 2) b [(r, c)]

/-- `revealAllMines` (script.js:370): every cell with `hasMine` becomes open,
regardless of its previous state; non-mine cells untouched. -/
def revealAllMines (b : Board) : Board :=
  b.map fun row => row.map fun cell =>
    if cell.hasMine then { cell with state := CellState.«open» } else cell

/-- The count taken by `checkWinCondition` (script.js:387): cells with
`!hasMine && state !== 'open'`. -/
def unopenedSafe (b : Board) : Nat :=
  (b.map fun row => row.countP fun cell =>
    !cell.hasMine && !(cell.state == CellState.«open»)).sum

/-- `checkWinCondition` (script.js:385): if no unopened safe cell remains, set
`status = 'win'` (the timer stop is an external collaborator signal). -/
def checkWinCondition (g : Game) : Game :=
  if unopenedSafe g.board = 0 then { g with status := GStatus.win } else g

/-- `openCell` (script.js:326). Ordering follows the JS exactly: status guard,
then the (possibly throwing) `game.board[r][c]` access, state guard, mine
branch, zero/flood vs single-open branch, then `checkWinCondition`. The
first-click timer start is an external collaborator signal with no effect on
engine state and is not modelled. -/
def openCell (g : Game) (r c : Nat) : Option Game :=
  if g.status ≠ GStatus.inProgress then some g
  else
    match cell? g.board r c with
    | none => none
    | some cell =>
      if cell.state ≠ CellState.closed then some g
      else if cell.hasMine then
        let b1 := setCell g.board r c { cell with state := CellState.«open» }
        some { g with status := GStatus.lose, board := revealAllMines b1 }
      else if cell.neighborMines = 0 then
        match floodOpen g.rows g.cols g.board r c with
        | none => none
        | some b2 => some (checkWinCondition { g with board := b2 })
      else
        some (checkWinCondition
          { g with board := setCell g.board r c { cell with state := CellState.«open» } })

/-- `toggleFlag` (script.js:357): status guard, (possibly throwing) cell
access, open-cell guard, then flip `flagged ↔ closed`. -/
def toggleFlag (g : Game) (r c : Nat) : Option Game :=
  if g.status ≠ GStatus.inProgress then some g
  else
    match cell? g.board r c with
    | none => none
    | some cell =>
      if cell.state = CellState.«open» then some g
      else
        let newState :=
          if cell.state = CellState.flagged then CellState.closed
          else CellState.flagged
        some { g with board := setCell g.board r c { cell with state := newState } }

/-- `createSampleBoard` (script.js:108): the static 3×3 test fixture. -/
def createSampleBoard : Board :=
  [ [ { hasMine := false, neighborMines := 1, state := CellState.closed },
      { hasMine := true, neighborMines := 0, state := CellState.closed },
      { hasMine := false, neighborMines := 2, state := CellState.closed } ],
    [ { hasMine := false, neighborMines := 1, state := CellState.closed },
      { hasMine := true, neighborMines := 0, state := CellState.closed },
      { hasMine := true, neighborMines := 0, state := CellState.closed } ],
    [ { hasMine := false, neighborMines := 0, state := CellState.closed },
      { hasMine := false, neighborMines := 2, state := CellState.closed },
      { hasMine := false, neighborMines := 1, state := CellState.closed } ] ]

/-- `sampleGame` (script.js:132). -/
def sampleGame : Game :=
  { rows := 3, cols := 3, mines := 3, status := GStatus.inProgress,
    board := createSampleBoard }

/-- Spec-side count: number of cells of the board satisfying `p`. -/
def countCells (p : Cell → Bool) (b : Board) : Nat :=
  (b.map fun row => row.countP p).sum

/-- Spec-side count of mine cells ("exactly `mines` cells have `hasMine=true`"). -/
def mineCount (b : Board) : Nat :=
  countCells (fun cell => cell.hasMine) b

/-- Total number of cells of the (possibly ragged) board. -/
def totalCells (b : Board) : Nat :=
  (b.map List.length).sum

/-- The spec's well-formedness of a generated board: `rows` rows, each of
length `cols`. -/
def wellShaped (rows cols : Nat) (b : Board) : Prop :=
  b.length = rows ∧ ∀ (r : Nat) (row : List Cell), b[r]? = some row → row.length = cols

/-! ### Spec-side notions used to state the claims -/

/-- A coordinate the flood loop would actually open: its cell exists, is
Closed, and carries no mine. -/
def validTarget (b : Board) (p : Nat × Nat) : Prop :=
  ∃ cell, cell? b p.1 p.2 = some cell ∧
    cell.state = CellState.closed ∧ cell.hasMine = false

/-- The cell at `p` exists and has `neighborMines = 0`. -/
def zeroAt (b : Board) (p : Nat × Nat) : Prop :=
  ∃ cell, cell? b p.1 p.2 = some cell ∧ cell.neighborMines = 0

/-- Flood reachability on the board as it is when the flood starts: the seed
itself (if openable), plus — from any reached cell with zero neighbor mines —
every in-bounds closed non-mine 8-neighbor. Border cells (nonzero
`neighborMines`) are reached as leaves but never extended from. -/
inductive Reaches (rows cols : Nat) (b : Board) : Nat × Nat → Nat × Nat → Prop
  | refl (p : Nat × Nat) : validTarget b p → Reaches rows cols b p p
  | tail (p q n : Nat × Nat) : Reaches rows cols b p q → zeroAt b q →
      n ∈ floodNbrs rows cols b q.1 q.2 → Reaches rows cols b p n

/-- Concrete run of the generator used to witness C1: a 2×2 board with one
mine placed by the single random pick (0,0). -/
def c1Board : Board :=
  [ [ { hasMine := true, neighborMines := 0, state := CellState.closed },
      { hasMine := false, neighborMines := 1, state := CellState.closed } ],
    [ { hasMine := false, neighborMines := 1, state := CellState.closed },
      { hasMine := false, neighborMines := 1, state := CellState.closed } ] ]

/-- Witness fixture: a fresh 1×1 game with no mine (as built by
`createGame 1 1 0 []`). -/
def c4Game : Game :=
  { rows := 1, cols := 1, mines := 0, status := GStatus.inProgress,
    board := [[{ hasMine := false, neighborMines := 0, state := CellState.closed }]] }

/-- Witness fixture: a finished (won) game. -/
def c7Game : Game :=
  { rows := 3, cols := 3, mines := 3, status := GStatus.win,
    board := createSampleBoard }

/-- Witness fixture: a 1×1 game whose only cell is already Open. -/
def openedCellGame : Game :=
  { rows := 1, cols := 1, mines := 0, status := GStatus.inProgress,
    board := [[{ hasMine := false, neighborMines := 0, state := CellState.«open» }]] }

/-- Witness fixture: sample game with the cell at (2,2) Flagged. -/
def flaggedCellGame : Game :=
  { rows := 3, cols := 3, mines := 3, status := GStatus.inProgress,
    board := setCell createSampleBoard 2 2
      { hasMine := false, neighborMines := 1, state := CellState.flagged } }

/-- Witness fixture: what the 1×1 no-mine game becomes after opening (0,0). -/
def c5WonGame : Game :=
  { rows := 1, cols := 1, mines := 0, status := GStatus.win,
    board := [[{ hasMine := false, neighborMines := 0, state := CellState.«open» }]] }

/-- Witness fixture: the sample game after flagging (0,0). -/
def c5FlagGame : Game :=
  { rows := 3, cols := 3, mines := 3, status := GStatus.inProgress,
    board := setCell createSampleBoard 0 0
      { hasMine := false, neighborMines := 1, state := CellState.flagged } }

/-- Witness fixture: the sample game after clicking the mine at (0,1). -/
def c7LoseGame : Game :=
  { rows := 3, cols := 3, mines := 3, status := GStatus.lose,
    board := revealAllMines (setCell createSampleBoard 0 1
      { hasMine := true, neighborMines := 0, state := CellState.«open» }) }

/-- Witness fixture: the board of `flaggedCellGame` after flooding from (2,0)
(the flag at (2,2) blocks and survives). -/
def c10Board : Board :=
  [ [ { hasMine := false, neighborMines := 1, state := CellState.closed },
      { hasMine := true, neighborMines := 0, state := CellState.closed },
      { hasMine := false, neighborMines := 2, state := CellState.closed } ],
    [ { hasMine := false, neighborMines := 1, state := CellState.«open» },
      { hasMine := true, neighborMines := 0, state := CellState.closed },
      { hasMine := true, neighborMines := 0, state := CellState.closed } ],
    [ { hasMine := false, neighborMines := 0, state := CellState.«open» },
      { hasMine := false, neighborMines := 2, state := CellState.«open» },
      { hasMine := false, neighborMines := 1, state := CellState.flagged } ] ]

/-- Witness fixture: `flaggedCellGame` after `openCell _ 2 0`. -/
def c10ResultGame : Game :=
  { rows := 3, cols := 3, mines := 3, status := GStatus.inProgress,
    board := c10Board }

/-! ### Basic lookup/update lemmas -/

theorem cell?_eq_some_iff {b : Board} {r c : Nat} {cell : Cell} :
    cell? b r c = some cell ↔ ∃ row, b[r]? = some row ∧ row[c]? = some cell := by
  simp [cell?, Option.bind_eq_some]

theorem setCell_eq {b : Board} {r : Nat} {row : List Cell} (hrow : b[r]? = some row)
    (c : Nat) (x : Cell) : setCell b r c x = b.set r (row.set c x) := by
  unfold setCell
  rw [hrow]

theorem cell?_setCell {b : Board} {r c : Nat} {cell : Cell}
    (h : cell? b r c = some cell) (x : Cell) (r' c' : Nat) :
    cell? (setCell b r c x) r' c' =
      if r = r' ∧ c = c' then some x else cell? b r' c' := by
  rcases cell?_eq_some_iff.1 h with ⟨row, hrow, hc⟩
  have hrlen : r < b.length := by
    rcases List.getElem?_eq_some.1 hrow with ⟨h', _⟩; exact h'
  have hclen : c < row.length := by
    rcases List.getElem?_eq_some.1 hc with ⟨h', _⟩; exact h'
  rw [setCell_eq hrow]
  unfold cell?
  by_cases hr : r = r' <;> by_cases hcc : c = c'
  · subst hr; subst hcc
    simp [List.getElem?_set_self hrlen, List.getElem?_set_self hclen]
  · subst hr
    simp [List.getElem?_set_self hrlen, List.getElem?_set_ne hcc, hcc, hrow]
  · subst hcc
    simp [List.getElem?_set_ne hr, hr]
  · simp [List.getElem?_set_ne hr, hr]

theorem length_setCell (b : Board) (r c : Nat) (x : Cell) :
    (setCell b r c x).length = b.length := by
  unfold setCell
  cases b[r]? with
  | none => rfl
  | some row => exact List.length_set b r (row.set c x)

theorem getElem?_setCell_map_length (b : Board) (r c : Nat) (x : Cell) (i : Nat) :
    ((setCell b r c x)[i]?).map List.length = (b[i]?).map List.length := by
  unfold setCell
  cases hrow : b[r]? with
  | none => rfl
  | some row =>
    by_cases hr : r = i
    · subst hr
      have hrlen : r < b.length := by
        rcases List.getElem?_eq_some.1 hrow with ⟨h', _⟩; exact h'
      rw [List.getElem?_set_self hrlen, hrow]
      simp
    · rw [List.getElem?_set_ne hr]

theorem wellShaped_setCell {rows cols : Nat} {b : Board} (hws : wellShaped rows cols b)
    (r c : Nat) (x : Cell) : wellShaped rows cols (setCell b r c x) := by
  unfold wellShaped at hws ⊢
  refine ⟨by rw [length_setCell]; exact hws.1, ?_⟩
  intro i row hrow
  have hlen := getElem?_setCell_map_length b r c x i
  rw [hrow] at hlen
  cases hrow' : b[i]? with
  | none => rw [hrow'] at hlen; simp at hlen
  | some row' =>
    rw [hrow'] at hlen
    simp at hlen
    rw [hlen]
    exact hws.2 i row' hrow'

theorem wellShaped_cellSome {rows cols : Nat} {b : Board} (hws : wellShaped rows cols b)
    {r c : Nat} (hr : r < rows) (hc : c < cols) : ∃ cell, cell? b r c = some cell := by
  unfold wellShaped at hws
  have hrlen : r < b.length := by rw [hws.1]; exact hr
  cases hrow : b[r]? with
  | none =>
    have := List.getElem?_eq_none_iff.1 hrow
    omega
  | some row =>
    have hclen : c < row.length := by rw [hws.2 r row hrow]; exact hc
    cases hcell : row[c]? with
    | none =>
      have := List.getElem?_eq_none_iff.1 hcell
      omega
    | some cell => exact ⟨cell, cell?_eq_some_iff.2 ⟨row, hrow, hcell⟩⟩

/-! ### Cell-counting lemmas -/

theorem countP_set {p : Cell → Bool} {row : List Cell} {c : Nat} {cell : Cell}
    (h : row[c]? = some cell) (x : Cell) :
    (row.set c x).countP p + (if p cell then 1 else 0) =
      row.countP p + (if p x then 1 else 0) := by
  induction row generalizing c with
  | nil => simp at h
  | cons a as ih =>
    cases c with
    | zero =>
      simp only [List.getElem?_cons_zero, Option.some.injEq] at h
      subst h
      simp only [List.set_cons_zero, List.countP_cons]
      omega
    | succ c =>
      simp only [List.getElem?_cons_succ] at h
      simp only [List.set_cons_succ, List.countP_cons]
      have := ih h
      omega

theorem countCells_listSet {p : Cell → Bool} {b : Board} {r : Nat} {row : List Cell}
    (hrow : b[r]? = some row) (newRow : List Cell) :
    countCells p (b.set r newRow) + row.countP p =
      countCells p b + newRow.countP p := by
  unfold countCells
  induction b generalizing r with
  | nil => simp at hrow
  | cons brow brest ih =>
    cases r with
    | zero =>
      simp only [List.getElem?_cons_zero, Option.some.injEq] at hrow
      subst hrow
      simp only [List.set_cons_zero, List.map_cons, List.sum_cons]
      omega
    | succ r =>
      simp only [List.getElem?_cons_succ] at hrow
      simp only [List.set_cons_succ, List.map_cons, List.sum_cons]
      have := ih hrow
      omega

theorem countCells_setCell {p : Cell → Bool} {b : Board} {r c : Nat} {cell : Cell}
    (h : cell? b r c = some cell) (x : Cell) :
    countCells p (setCell b r c x) + (if p cell then 1 else 0) =
      countCells p b + (if p x then 1 else 0) := by
  rcases cell?_eq_some_iff.1 h with ⟨row, hrow, hc⟩
  rw [setCell_eq hrow]
  have h1 := countCells_listSet (p := p) hrow (row.set c x)
  have h2 := countP_set (p := p) hc x
  omega

theorem countCells_le_totalCells (p : Cell → Bool) (b : Board) :
    countCells p b ≤ totalCells b := by
  unfold countCells totalCells
  induction b with
  | nil => simp
  | cons row rest ih =>
    simp only [List.map_cons, List.sum_cons]
    exact Nat.add_le_add (List.countP_le_length p) ih

theorem totalCells_listSet {b : Board} {r : Nat} {row : List Cell}
    (hrow : b[r]? = some row) (newRow : List Cell) :
    totalCells (b.set r newRow) + row.length = totalCells b + newRow.length := by
  unfold totalCells
  induction b generalizing r with
  | nil => simp at hrow
  | cons brow brest ih =>
    cases r with
    | zero =>
      simp only [List.getElem?_cons_zero, Option.some.injEq] at hrow
      subst hrow
      simp only [List.set_cons_zero, List.map_cons, List.sum_cons]
      omega
    | succ r =>
      simp only [List.getElem?_cons_succ] at hrow
      simp only [List.set_cons_succ, List.map_cons, List.sum_cons]
      have := ih hrow
      omega

theorem totalCells_setCell {b : Board} {r c : Nat} {cell : Cell}
    (h : cell? b r c = some cell) (x : Cell) :
    totalCells (setCell b r c x) = totalCells b := by
  rcases cell?_eq_some_iff.1 h with ⟨row, hrow, hc⟩
  rw [setCell_eq hrow]
  have h1 := totalCells_listSet hrow (row.set c x)
  have h2 : (row.set c x).length = row.length := List.length_set row c x
  omega
/-! ### Board-generation lemmas -/

theorem cell?_initBoard (rows cols r c : Nat) :
    cell? (initBoard rows cols) r c =
      if r < rows ∧ c < cols then some (createCell false) else none := by
  unfold cell? initBoard
  simp only [List.getElem?_replicate]
  by_cases hr : r < rows <;> by_cases hc : c < cols <;> simp [hr, hc] <;> omega

theorem wellShaped_initBoard (rows cols : Nat) :
    wellShaped rows cols (initBoard rows cols) := by
  unfold wellShaped initBoard
  refine ⟨List.length_replicate rows _, ?_⟩
  intro r row hrow
  simp only [List.getElem?_replicate] at hrow
  by_cases hr : r < rows
  · rw [if_pos hr] at hrow
    cases hrow
    exact List.length_replicate cols _
  · rw [if_neg hr] at hrow
    cases hrow

theorem mineCount_initBoard (rows cols : Nat) :
    mineCount (initBoard rows cols) = 0 := by
  unfold mineCount countCells initBoard
  simp [List.countP_eq_zero, List.mem_replicate, createCell]

theorem cell?_setMineAt {b : Board} {r c : Nat} {cell : Cell}
    (h : cell? b r c = some cell) (r' c' : Nat) :
    cell? (setMineAt b r c) r' c' =
      if r = r' ∧ c = c' then some { cell with hasMine := true }
      else cell? b r' c' := by
  unfold setMineAt
  rw [h]
  exact cell?_setCell h _ r' c'

theorem wellShaped_setMineAt {rows cols : Nat} {b : Board}
    (hws : wellShaped rows cols b) (r c : Nat) :
    wellShaped rows cols (setMineAt b r c) := by
  unfold setMineAt
  cases cell? b r c with
  | none => exact hws
  | some cell => exact wellShaped_setCell hws r c _

theorem mineCount_setMineAt {b : Board} {r c : Nat} {cell : Cell}
    (h : cell? b r c = some cell) (hm : cell.hasMine = false) :
    mineCount (setMineAt b r c) = mineCount b + 1 := by
  unfold setMineAt
  rw [h]
  have := countCells_setCell (p := fun cell => cell.hasMine) h
    { cell with hasMine := true }
  simp only [hm] at this
  unfold mineCount
  simpa using this

theorem hasMineAt_false_elim {b : Board} {r c : Nat} {cell : Cell}
    (h : cell? b r c = some cell) (hm : ¬hasMineAt b r c = true) :
    cell.hasMine = false := by
  unfold hasMineAt at hm
  rw [h] at hm
  simpa using hm

/-- Master invariant of the mine-placement loop: shape is preserved, exactly
`rem` additional cells acquire a mine, and every cell's `state` and
`neighborMines` are untouched. -/
theorem placeMines_spec {rows cols : Nat} (hr : 0 < rows) (hc : 0 < cols) :
    ∀ (picks : List (Nat × Nat)) (b : Board) (rem : Nat) (b' : Board),
      placeMines rows cols picks b rem = some b' →
      wellShaped rows cols b →
      wellShaped rows cols b' ∧ mineCount b' = mineCount b + rem ∧
        ∀ (r c : Nat) (cellB : Cell), cell? b' r c = some cellB →
          ∃ cellA, cell? b r c = some cellA ∧
            cellB.state = cellA.state ∧
            cellB.neighborMines = cellA.neighborMines := by
  intro picks
  induction picks with
  | nil =>
    intro b rem b' hpl hws
    cases rem with
    | zero =>
      simp only [placeMines, Option.some.injEq] at hpl
      subst hpl
      exact ⟨hws, by omega, fun r c cellB hB => ⟨cellB, hB, rfl, rfl⟩⟩
    | succ rem => simp [placeMines] at hpl
  | cons pk rest ih =>
    intro b rem b' hpl hws
    cases rem with
    | zero =>
      simp only [placeMines, Option.some.injEq] at hpl
      subst hpl
      exact ⟨hws, by omega, fun r c cellB hB => ⟨cellB, hB, rfl, rfl⟩⟩
    | succ rem =>
      obtain ⟨pr, pc⟩ := pk
      simp only [placeMines] at hpl
      by_cases hmine : hasMineAt b (pr % rows) (pc % cols) = true
      · rw [if_pos hmine] at hpl
        exact ih b (rem + 1) b' hpl hws
      · rw [if_neg hmine] at hpl
        obtain ⟨cell, hcell⟩ :=
          wellShaped_cellSome hws (Nat.mod_lt pr hr) (Nat.mod_lt pc hc)
        have hmF : cell.hasMine = false := hasMineAt_false_elim hcell hmine
        have hws₁ := wellShaped_setMineAt hws (pr % rows) (pc % cols)
        obtain ⟨hws', hcount, hpres⟩ := ih _ rem b' hpl hws₁
        refine ⟨hws', ?_, ?_⟩
        · rw [hcount, mineCount_setMineAt hcell hmF]
          omega
        · intro r c cellB hB
          obtain ⟨cellM, hM, hs, hn⟩ := hpres r c cellB hB
          rw [cell?_setMineAt hcell r c] at hM
          by_cases hit : pr % rows = r ∧ pc % cols = c
          · rw [if_pos hit] at hM
            cases hM
            obtain ⟨h1, h2⟩ := hit
            subst h1; subst h2
            exact ⟨cell, hcell, hs, hn⟩
          · rw [if_neg hit] at hM
            exact ⟨cellM, hM, hs, hn⟩

/-! ### Neighbor-count pass lemmas -/

theorem getElem?_mapRowFrom (f : Nat → Cell → Cell) (k : Nat) (row : List Cell)
    (i : Nat) : (mapRowFrom f k row)[i]? = (row[i]?).map (f (k + i)) := by
  induction row generalizing k i with
  | nil => simp [mapRowFrom]
  | cons a as ih =>
    cases i with
    | zero => simp [mapRowFrom]
    | succ i =>
      have hk : k + 1 + i = k + (i + 1) := by omega
      simp only [mapRowFrom, List.getElem?_cons_succ, ih (k + 1) i, hk]

theorem length_mapRowFrom (f : Nat → Cell → Cell) (k : Nat) (row : List Cell) :
    (mapRowFrom f k row).length = row.length := by
  induction row generalizing k with
  | nil => rfl
  | cons a as ih => simp [mapRowFrom, ih]

theorem getElem?_mapBoardFrom (f : Nat → Nat → Cell → Cell) (k : Nat) (b : Board)
    (r : Nat) :
    (mapBoardFrom f k b)[r]? = (b[r]?).map fun row => mapRowFrom (f (k + r)) 0 row := by
  induction b generalizing k r with
  | nil => simp [mapBoardFrom]
  | cons row rest ih =>
    cases r with
    | zero => simp [mapBoardFrom]
    | succ r =>
      have hk : k + 1 + r = k + (r + 1) := by omega
      simp only [mapBoardFrom, List.getElem?_cons_succ, ih (k + 1) r, hk]

theorem length_mapBoardFrom (f : Nat → Nat → Cell → Cell) (k : Nat) (b : Board) :
    (mapBoardFrom f k b).length = b.length := by
  induction b generalizing k with
  | nil => rfl
  | cons row rest ih => simp [mapBoardFrom, ih]

theorem cell?_countNeighbors (b : Board) (r c : Nat) :
    cell? (countNeighbors b) r c = (cell? b r c).map fun cell =>
      if cell.hasMine then cell
      else { cell with neighborMines := countAdjacentMines b r c } := by
  unfold countNeighbors cell?
  rw [getElem?_mapBoardFrom]
  cases b[r]? with
  | none => rfl
  | some row =>
    simp only [Option.map, Option.bind]
    rw [getElem?_mapRowFrom]
    cases row[c]? with
    | none => rfl
    | some cell => simp

theorem length_countNeighbors (b : Board) : (countNeighbors b).length = b.length :=
  length_mapBoardFrom _ 0 b

theorem cols0_countNeighbors (b : Board) : cols0 (countNeighbors b) = cols0 b := by
  unfold cols0 countNeighbors
  rw [getElem?_mapBoardFrom]
  cases b[0]? with
  | none => rfl
  | some row => simp [length_mapRowFrom]

theorem hasMineAt_countNeighbors (b : Board) (r c : Nat) :
    hasMineAt (countNeighbors b) r c = hasMineAt b r c := by
  unfold hasMineAt
  rw [cell?_countNeighbors]
  cases cell? b r c with
  | none => rfl
  | some cell =>
    by_cases hm : cell.hasMine <;> simp [hm]

theorem countAdjacentMines_countNeighbors (b : Board) (r c : Nat) :
    countAdjacentMines (countNeighbors b) r c = countAdjacentMines b r c := by
  unfold countAdjacentMines
  apply List.countP_congr
  intro d _
  simp only [length_countNeighbors, cols0_countNeighbors, hasMineAt_countNeighbors]

theorem wellShaped_countNeighbors {rows cols : Nat} {b : Board}
    (hws : wellShaped rows cols b) : wellShaped rows cols (countNeighbors b) := by
  unfold wellShaped at hws ⊢
  refine ⟨by rw [length_countNeighbors]; exact hws.1, ?_⟩
  intro r row hrow
  unfold countNeighbors at hrow
  rw [getElem?_mapBoardFrom] at hrow
  cases hrow' : b[r]? with
  | none => rw [hrow'] at hrow; cases hrow
  | some row' =>
    rw [hrow'] at hrow
    simp only [Option.map] at hrow
    cases hrow
    rw [length_mapRowFrom]
    exact hws.2 r row' hrow'

theorem countP_mapRowFrom {p : Cell → Bool} {f : Nat → Cell → Cell}
    (hf : ∀ k cell, p (f k cell) = p cell) (k : Nat) (row : List Cell) :
    (mapRowFrom f k row).countP p = row.countP p := by
  induction row generalizing k with
  | nil => rfl
  | cons a as ih => simp [mapRowFrom, List.countP_cons, hf, ih]

theorem countCells_mapBoardFrom {p : Cell → Bool} {f : Nat → Nat → Cell → Cell}
    (hf : ∀ r c cell, p (f r c cell) = p cell) (k : Nat) (b : Board) :
    countCells p (mapBoardFrom f k b) = countCells p b := by
  unfold countCells
  induction b generalizing k with
  | nil => rfl
  | cons row rest ih =>
    simp only [mapBoardFrom, List.map_cons, List.sum_cons]
    rw [countP_mapRowFrom (fun c cell => hf k c cell) 0 row, ih (k + 1)]

theorem mineCount_countNeighbors (b : Board) :
    mineCount (countNeighbors b) = mineCount b := by
  unfold mineCount countNeighbors
  apply countCells_mapBoardFrom
  intro r c cell
  by_cases hm : cell.hasMine <;> simp [hm]

theorem totalCells_of_wellShaped {rows cols : Nat} {b : Board}
    (hws : wellShaped rows cols b) : totalCells b = rows * cols := by
  unfold wellShaped at hws
  obtain ⟨hlen, hrows⟩ := hws
  subst hlen
  unfold totalCells
  induction b with
  | nil => simp
  | cons row rest ih =>
    simp only [List.map_cons, List.sum_cons, List.length_cons]
    rw [hrows 0 row (by simp)]
    rw [ih fun r row' h => hrows (r + 1) row' (by simpa using h)]
    ring

/-! ### Claim C1: generated boards are rows×cols, carry exactly `mines` mines,
start all-Closed, and have exact neighbor counts -/

/-- C1. For every `rows ≥ 1`, `cols ≥ 1`, `0 ≤ mines ≤ rows*cols` and every
outcome of the random source (a pick sequence on which the placement loop
finishes), `createBoard` returns a rows-by-cols board in which exactly `mines`
cells have `hasMine = true`, every cell's state is Closed, and every non-mine
cell's `neighborMines` equals the number of its in-bounds 8-adjacent cells
with `hasMine = true`. -/
theorem createBoard_spec (rows cols mines : Nat) (picks : List (Nat × Nat))
    (hr : 1 ≤ rows) (hc : 1 ≤ cols) (hm : mines ≤ rows * cols) (b : Board)
    (hcb : createBoard rows cols mines picks = some b) :
    b.length = rows ∧
    (∀ (r : Nat) (row : List Cell), b[r]? = some row → row.length = cols) ∧
    mineCount b = mines ∧
    ∀ (r c : Nat) (cell : Cell), cell? b r c = some cell →
      cell.state = CellState.closed ∧
      (cell.hasMine = false → cell.neighborMines = countAdjacentMines b r c) := by
  unfold createBoard at hcb
  cases hpl : placeMines rows cols picks (initBoard rows cols) mines with
  | none => rw [hpl] at hcb; cases hcb
  | some b₁ =>
    rw [hpl] at hcb
    simp only [Option.map] at hcb
    cases hcb
    obtain ⟨hws₁, hcnt, hpres⟩ :=
      placeMines_spec hr hc picks (initBoard rows cols) mines b₁ hpl
        (wellShaped_initBoard rows cols)
    have hwsF := wellShaped_countNeighbors hws₁
    refine ⟨hwsF.1, hwsF.2, ?_, ?_⟩
    · rw [mineCount_countNeighbors, hcnt, mineCount_initBoard]
      omega
    · intro r c cell hcell
      rw [cell?_countNeighbors] at hcell
      cases hc₁ : cell? b₁ r c with
      | none => rw [hc₁] at hcell; cases hcell
      | some cell₁ =>
        rw [hc₁] at hcell
        simp only [Option.map] at hcell
        obtain ⟨cellA, hA, hst, _⟩ := hpres r c cell₁ hc₁
        rw [cell?_initBoard] at hA
        have hstA : cellA.state = CellState.closed := by
          by_cases hb : r < rows ∧ c < cols
          · rw [if_pos hb] at hA
            cases hA
            rfl
          · rw [if_neg hb] at hA
            cases hA
        constructor
        · by_cases hmine : cell₁.hasMine = true
          · rw [if_pos hmine] at hcell
            cases hcell
            rw [hst, hstA]
          · rw [if_neg hmine] at hcell
            cases hcell
            simpa using hst.trans hstA
        · intro hnomine
          have hmine₁ : cell₁.hasMine = false := by
            by_cases hmine : cell₁.hasMine = true
            · rw [if_pos hmine] at hcell
              cases hcell
              rw [hmine] at hnomine
              cases hnomine
            · simpa using hmine
          rw [hmine₁] at hcell
          simp only [Bool.false_eq_true, if_false] at hcell
          cases hcell
          simp only []
          rw [countAdjacentMines_countNeighbors]

/-- Witness for C1 at `rows = cols = 2`, `mines = 1`, picks `[(0,0)]`. -/
theorem createBoard_spec_witness :
    (1 ≤ 2 ∧ 1 ≤ 2 ∧ 1 ≤ 2 * 2 ∧
      createBoard 2 2 1 [(0, 0)] = some c1Board) ∧
    (c1Board.length = 2 ∧
     (∀ (r : Nat) (row : List Cell), c1Board[r]? = some row → row.length = 2) ∧
     mineCount c1Board = 1 ∧
     ∀ (r c : Nat) (cell : Cell), cell? c1Board r c = some cell →
       cell.state = CellState.closed ∧
       (cell.hasMine = false →
         cell.neighborMines = countAdjacentMines c1Board r c)) :=
  ⟨⟨by decide, by decide, by decide, by decide⟩,
    createBoard_spec 2 2 1 [(0, 0)] (by decide) (by decide) (by decide) c1Board
      (by decide)⟩

/-! ### Claim C6: over-capacity mine requests never finish -/

/-- C6. The code at `mines > rows*cols` retries forever: no outcome of the
random source lets `createGame 1 1 2` return (the placement loop can never
finish, modelled as `none` on every finite pick sequence). And at
`mines = rows*cols` the code does not fail either: `createGame 1 1 1`
successfully returns an all-mine board. Both contradict the requirement of an
InvalidConfiguration-style rejection. -/
theorem createGame_overfull_never_returns :
    (∀ picks : List (Nat × Nat), createGame 1 1 2 picks = none) ∧
    (∃ g : Game, createGame 1 1 1 [(0, 0)] = some g ∧
      g.status = GStatus.inProgress) := by
  constructor
  · intro picks
    unfold createGame createBoard
    cases hpl : placeMines 1 1 picks (initBoard 1 1) 2 with
    | none => rfl
    | some b' =>
      obtain ⟨hws, hcnt, _⟩ :=
        placeMines_spec (by decide) (by decide) picks (initBoard 1 1) 2 b' hpl
          (wellShaped_initBoard 1 1)
      have h1 : mineCount b' ≤ totalCells b' := countCells_le_totalCells _ b'
      have h2 : totalCells b' = 1 * 1 := totalCells_of_wellShaped hws
      rw [mineCount_initBoard] at hcnt
      omega
  · exact ⟨_, rfl, rfl⟩

/-! ### Flood-fill neighbour-list lemmas -/

theorem mem_floodNbrs_elim {rows cols : Nat} {b : Board} {cr cc : Nat}
    {n : Nat × Nat} (h : n ∈ floodNbrs rows cols b cr cc) :
    n.1 < rows ∧ n.2 < cols ∧ validTarget b n := by
  unfold floodNbrs at h
  rw [List.mem_filterMap] at h
  obtain ⟨d, _, hd⟩ := h
  simp only [] at hd
  split at hd
  · rename_i hb
    split at hd
    · rename_i cell hcell
      split at hd
      · rename_i hcond
        cases hd
        refine ⟨by omega, by omega, cell, hcell, hcond.1, hcond.2⟩
      · cases hd
    · cases hd
  · cases hd

theorem mem_floodNbrs_state {rows cols : Nat} {b b' : Board} {cr cc : Nat}
    {n : Nat × Nat} (h : n ∈ floodNbrs rows cols b cr cc)
    (heq : cell? b' n.1 n.2 = cell? b n.1 n.2) :
    n ∈ floodNbrs rows cols b' cr cc := by
  unfold floodNbrs at h ⊢
  rw [List.mem_filterMap] at h ⊢
  obtain ⟨d, hdmem, hd⟩ := h
  refine ⟨d, hdmem, ?_⟩
  simp only [] at hd ⊢
  split at hd
  · rename_i hb
    split at hd
    · rename_i cell hcell
      split at hd
      · rename_i hcond
        cases hd
        dsimp only at heq
        rw [if_pos hb, heq, hcell]
        simp [hcond.1, hcond.2]
      · cases hd
    · cases hd
  · cases hd

/-- After opening the cell at `z`, a neighbour-list member of the old board
other than `z` is still a member (only `z`'s state changed). -/
theorem mem_floodNbrs_up {rows cols : Nat} {b : Board} {zr zc : Nat}
    {zcell : Cell} (hz : cell? b zr zc = some zcell) (x : Cell) {cr cc : Nat}
    {n : Nat × Nat} (hn : n ∈ floodNbrs rows cols b cr cc)
    (hne : n ≠ (zr, zc)) : n ∈ floodNbrs rows cols (setCell b zr zc x) cr cc := by
  apply mem_floodNbrs_state hn
  rw [cell?_setCell hz x n.1 n.2, if_neg]
  intro hhit
  exact hne (by cases n; simp at hhit ⊢; exact ⟨hhit.1.symm, hhit.2.symm⟩)

/-- A neighbour-list member of the board after opening `z` is a member of the
old board's list and is not `z`. -/
theorem mem_floodNbrs_down {rows cols : Nat} {b : Board} {zr zc : Nat}
    {zcell : Cell} (hz : cell? b zr zc = some zcell) {cr cc : Nat}
    {n : Nat × Nat}
    (hn : n ∈ floodNbrs rows cols
      (setCell b zr zc { zcell with state := CellState.«open» }) cr cc) :
    n ∈ floodNbrs rows cols b cr cc ∧ n ≠ (zr, zc) := by
  obtain ⟨-, -, cell, hcell, hclosed, -⟩ := mem_floodNbrs_elim hn
  have hne : n ≠ (zr, zc) := by
    intro hEq
    rw [hEq] at hcell
    rw [cell?_setCell hz _ zr zc, if_pos ⟨rfl, rfl⟩] at hcell
    cases hcell
    cases hclosed
  have heq : cell? b n.1 n.2 =
      cell? (setCell b zr zc { zcell with state := CellState.«open» }) n.1 n.2 := by
    rw [cell?_setCell hz _ n.1 n.2, if_neg]
    intro hhit
    exact hne (by cases n; simp at hhit ⊢; exact ⟨hhit.1.symm, hhit.2.symm⟩)
  exact ⟨mem_floodNbrs_state hn heq, hne⟩

theorem validTarget_congr {b b' : Board} {p : Nat × Nat}
    (heq : cell? b' p.1 p.2 = cell? b p.1 p.2) (h : validTarget b p) :
    validTarget b' p := by
  obtain ⟨cell, hcell, h1, h2⟩ := h
  exact ⟨cell, by rw [heq]; exact hcell, h1, h2⟩

theorem zeroAt_openAt {b : Board} {zr zc : Nat} {zcell : Cell}
    (hz : cell? b zr zc = some zcell) (q : Nat × Nat) :
    zeroAt (setCell b zr zc { zcell with state := CellState.«open» }) q ↔
      zeroAt b q := by
  unfold zeroAt
  rw [cell?_setCell hz _ q.1 q.2]
  by_cases hhit : zr = q.1 ∧ zc = q.2
  · rw [if_pos hhit]
    constructor
    · rintro ⟨cell, hcell, h0⟩
      cases hcell
      exact ⟨zcell, by rw [← hhit.1, ← hhit.2]; exact hz, h0⟩
    · rintro ⟨cell, hcell, h0⟩
      rw [← hhit.1, ← hhit.2] at hcell
      rw [hz] at hcell
      cases hcell
      exact ⟨_, rfl, h0⟩
  · rw [if_neg hhit]

/-! ### Reachability lemmas -/

theorem Reaches.valid_src {rows cols : Nat} {b : Board} {x q : Nat × Nat}
    (h : Reaches rows cols b x q) : validTarget b x := by
  induction h with
  | refl hp => exact hp
  | tail q n hr hq0 hmem ih => exact ih

theorem Reaches.valid_tgt {rows cols : Nat} {b : Board} {x q : Nat × Nat}
    (h : Reaches rows cols b x q) : validTarget b q := by
  induction h with
  | refl hp => exact hp
  | tail q n hr hq0 hmem ih => exact (mem_floodNbrs_elim hmem).2.2

theorem Reaches.trans {rows cols : Nat} {b : Board} {x y q : Nat × Nat}
    (h1 : Reaches rows cols b x y) (h2 : Reaches rows cols b y q) :
    Reaches rows cols b x q := by
  induction h2 with
  | refl hp => exact h1
  | tail q n hr hq0 hmem ih => exact Reaches.tail _ _ _ ih hq0 hmem

/-- A reach-path on the board after opening `z` is a reach-path on the old
board (opening a cell only shrinks the closed region). -/
theorem reaches_down {rows cols : Nat} {b : Board} {zr zc : Nat} {zcell : Cell}
    (hz : cell? b zr zc = some zcell) {x q : Nat × Nat}
    (h : Reaches rows cols (setCell b zr zc { zcell with state := CellState.«open» })
      x q) : Reaches rows cols b x q := by
  induction h with
  | refl hp =>
    obtain ⟨cell, hcell, hclosed, hmine⟩ := hp
    have hne : ¬(zr = x.1 ∧ zc = x.2) := by
      intro hhit
      rw [cell?_setCell hz _ x.1 x.2, if_pos hhit] at hcell
      cases hcell
      cases hclosed
    rw [cell?_setCell hz _ x.1 x.2, if_neg hne] at hcell
    exact Reaches.refl x ⟨cell, hcell, hclosed, hmine⟩
  | tail q n hr hq0 hmem ih =>
    refine Reaches.tail _ _ _ ih ((zeroAt_openAt hz q).1 hq0) ?_
    exact (mem_floodNbrs_down hz hmem).1

/-- Decomposition of a reach-path when the zero cell `z` is opened: the target
is `z` itself, or the path survives on the new board, or it re-roots at one of
`z`'s pushed neighbours on the new board. -/
theorem reaches_decompose_zero {rows cols : Nat} {b : Board} {zr zc : Nat}
    {zcell : Cell} (hz : cell? b zr zc = some zcell)
    (hz0 : zcell.neighborMines = 0) {x q : Nat × Nat}
    (h : Reaches rows cols b x q) :
    q = (zr, zc) ∨
    Reaches rows cols (setCell b zr zc { zcell with state := CellState.«open» }) x q ∨
    ∃ n ∈ floodNbrs rows cols
        (setCell b zr zc { zcell with state := CellState.«open» }) zr zc,
      Reaches rows cols (setCell b zr zc { zcell with state := CellState.«open» }) n q := by
  induction h with
  | refl hp =>
    by_cases hpz : x = (zr, zc)
    · exact Or.inl hpz
    · refine Or.inr (Or.inl (Reaches.refl x (validTarget_congr ?_ hp)))
      rw [cell?_setCell hz _ x.1 x.2, if_neg]
      intro hhit
      exact hpz (by cases x; simp at hhit ⊢; exact ⟨hhit.1.symm, hhit.2.symm⟩)
  | tail q n hpq hq0 hmem ih =>
    by_cases hnz : n = (zr, zc)
    · exact Or.inl hnz
    · rcases ih with hqz | hsur | ⟨m, hmmem, hmr⟩
      · -- the zero cell `q` being extended from is `z` itself
        subst hqz
        have hmem' : n ∈ floodNbrs rows cols
            (setCell b zr zc { zcell with state := CellState.«open» }) zr zc :=
          mem_floodNbrs_up hz _ hmem hnz
        have hvt := (mem_floodNbrs_elim hmem').2.2
        exact Or.inr (Or.inr ⟨n, hmem', Reaches.refl n hvt⟩)
      · have hqz : q ≠ (zr, zc) := by
          intro hEq
          obtain ⟨cell, hcell, hclosed, -⟩ := hsur.valid_tgt
          rw [hEq] at hcell
          rw [cell?_setCell hz _ zr zc, if_pos ⟨rfl, rfl⟩] at hcell
          cases hcell
          cases hclosed
        refine Or.inr (Or.inl (Reaches.tail _ _ _ hsur
          ((zeroAt_openAt hz q).2 hq0) (mem_floodNbrs_up hz _ hmem hnz)))
      · have hqz : q ≠ (zr, zc) := by
          intro hEq
          obtain ⟨cell, hcell, hclosed, -⟩ := hmr.valid_tgt
          rw [hEq] at hcell
          rw [cell?_setCell hz _ zr zc, if_pos ⟨rfl, rfl⟩] at hcell
          cases hcell
          cases hclosed
        exact Or.inr (Or.inr ⟨m, hmmem, Reaches.tail _ _ _ hmr
          ((zeroAt_openAt hz q).2 hq0) (mem_floodNbrs_up hz _ hmem hnz)⟩)

/-- Decomposition when the opened cell `z` has a nonzero neighbour count: the
target is `z` or the path survives on the new board (`z` cannot be an interior
node since interior nodes have zero counts). -/
theorem reaches_decompose_nonzero {rows cols : Nat} {b : Board} {zr zc : Nat}
    {zcell : Cell} (hz : cell? b zr zc = some zcell)
    (hz0 : zcell.neighborMines ≠ 0) {x q : Nat × Nat}
    (h : Reaches rows cols b x q) :
    q = (zr, zc) ∨
    Reaches rows cols (setCell b zr zc { zcell with state := CellState.«open» }) x q := by
  induction h with
  | refl hp =>
    by_cases hpz : x = (zr, zc)
    · exact Or.inl hpz
    · refine Or.inr (Reaches.refl x (validTarget_congr ?_ hp))
      rw [cell?_setCell hz _ x.1 x.2, if_neg]
      intro hhit
      exact hpz (by cases x; simp at hhit ⊢; exact ⟨hhit.1.symm, hhit.2.symm⟩)
  | tail q n hpq hq0 hmem ih =>
    by_cases hnz : n = (zr, zc)
    · exact Or.inl hnz
    · rcases ih with hqz | hsur
      · -- `q = z` is impossible: `q` is a zero cell, `z` is not
        subst hqz
        obtain ⟨cell, hcell, h0⟩ := hq0
        rw [hz] at hcell
        cases hcell
        exact absurd h0 hz0
      · exact Or.inr (Reaches.tail _ _ _ hsur
          ((zeroAt_openAt hz q).2 hq0) (mem_floodNbrs_up hz _ hmem hnz))

/-! ### Flood-loop unfolding and measure lemmas -/

theorem floodLoopF_cons_some {rows cols fuel : Nat} {b : Board} {cr cc : Nat}
    {rest : List (Nat × Nat)} {cell : Cell} (hc : cell? b cr cc = some cell) :
    floodLoopF rows cols (fuel + 1) b ((cr, cc) :: rest) =
      if cell.state ≠ CellState.closed ∨ cell.hasMine then
        floodLoopF rows cols fuel b rest
      else if cell.neighborMines = 0 then
        floodLoopF rows cols fuel
          (setCell b cr cc { cell with state := CellState.«open» })
          ((floodNbrs rows cols
            (setCell b cr cc { cell with state := CellState.«open» }) cr cc).reverse
            ++ rest)
      else
        floodLoopF rows cols fuel
          (setCell b cr cc { cell with state := CellState.«open» }) rest := by
  simp only [floodLoopF]
  rw [hc]

theorem floodLoopF_cons_none {rows cols fuel : Nat} {b : Board} {cr cc : Nat}
    {rest : List (Nat × Nat)} (hc : cell? b cr cc = none) :
    floodLoopF rows cols (fuel + 1) b ((cr, cc) :: rest) = none := by
  simp only [floodLoopF]
  rw [hc]

theorem cell?_isSome_setCell {b : Board} {r c : Nat} {cell : Cell}
    (h : cell? b r c = some cell) (x : Cell) (p : Nat × Nat) :
    (cell? (setCell b r c x) p.1 p.2).isSome = (cell? b p.1 p.2).isSome := by
  rw [cell?_setCell h x p.1 p.2]
  by_cases hhit : r = p.1 ∧ c = p.2
  · rw [if_pos hhit]
    have hp : cell? b p.1 p.2 = some cell := by rw [← hhit.1, ← hhit.2]; exact h
    rw [hp]
    rfl
  · rw [if_neg hhit]

theorem closedCount_openAt {b : Board} {r c : Nat} {cell : Cell}
    (hc : cell? b r c = some cell) (hclosed : cell.state = CellState.closed) :
    closedCount (setCell b r c { cell with state := CellState.«open» }) + 1 =
      closedCount b := by
  have h := countCells_setCell
    (p := fun cell => cell.state == CellState.closed) hc
    { cell with state := CellState.«open» }
  rw [hclosed] at h
  simp at h
  show countCells (fun cell => cell.state == CellState.closed)
      (setCell b r c { cell with state := CellState.«open» }) + 1 =
    countCells (fun cell => cell.state == CellState.closed) b
  omega

theorem length_floodNbrs_le (rows cols : Nat) (b : Board) (cr cc : Nat) :
    (floodNbrs rows cols b cr cc).length ≤ 8 :=
  le_trans (List.length_filterMap_le _ _) (by rfl)

/-! ### Flood-loop frame/soundness: only Closed non-mine reach-set cells change,
and they change exactly from Closed to Open -/

theorem floodLoopF_frame {rows cols : Nat} :
    ∀ (fuel : Nat) (b : Board) (stack : List (Nat × Nat)) (b' : Board),
      floodLoopF rows cols fuel b stack = some b' →
      ∀ p : Nat × Nat,
        (cell? b p.1 p.2 = none → cell? b' p.1 p.2 = none) ∧
        (∀ cell, cell? b p.1 p.2 = some cell →
          cell? b' p.1 p.2 = some cell ∨
          (cell.state = CellState.closed ∧ cell.hasMine = false ∧
           cell? b' p.1 p.2 = some { cell with state := CellState.«open» } ∧
           ∃ x ∈ stack, Reaches rows cols b x p)) := by
  intro fuel
  induction fuel with
  | zero =>
    intro b stack b' h p
    simp [floodLoopF] at h
  | succ fuel ih =>
    intro b stack b' h p
    cases stack with
    | nil =>
      have hb : b = b' := by simpa [floodLoopF] using h
      subst hb
      exact ⟨fun hn => hn, fun cell hc => Or.inl hc⟩
    | cons top rest =>
      obtain ⟨cr, cc⟩ := top
      cases hc : cell? b cr cc with
      | none => rw [floodLoopF_cons_none hc] at h; cases h
      | some cell =>
        rw [floodLoopF_cons_some hc] at h
        by_cases hguard : cell.state ≠ CellState.closed ∨ cell.hasMine = true
        · rw [if_pos hguard] at h
          have IH := ih b rest b' h p
          refine ⟨IH.1, fun cellp hcp => ?_⟩
          rcases IH.2 cellp hcp with h1 | ⟨h1, h2, h3, x, hx, hr⟩
          · exact Or.inl h1
          · exact Or.inr ⟨h1, h2, h3, x, List.mem_cons_of_mem _ hx, hr⟩
        · rw [if_neg hguard] at h
          push_neg at hguard
          obtain ⟨hclosed, hmineT⟩ := hguard
          have hmine : cell.hasMine = false := by simpa using hmineT
          obtain ⟨p1, p2⟩ := p
          by_cases hp : cr = p1 ∧ cc = p2
          · -- p is the popped, just-opened cell
            obtain ⟨hp1, hp2⟩ := hp
            subst hp1; subst hp2
            have hb₁p : cell? (setCell b cr cc { cell with state := CellState.«open» })
                cr cc = some { cell with state := CellState.«open» } := by
              rw [cell?_setCell hc _ cr cc, if_pos ⟨rfl, rfl⟩]
            have hopen : ∀ st, floodLoopF rows cols fuel
                  (setCell b cr cc { cell with state := CellState.«open» }) st = some b' →
                cell? b' cr cc = some { cell with state := CellState.«open» } := by
              intro st hst
              have IH := ih _ st b' hst (cr, cc)
              rcases IH.2 _ hb₁p with h1 | ⟨hcl, _, _, _⟩
              · exact h1
              · exact absurd hcl (by simp)
            have hfin : cell? b' cr cc = some { cell with state := CellState.«open» } := by
              by_cases h0 : cell.neighborMines = 0
              · rw [if_pos h0] at h; exact hopen _ h
              · rw [if_neg h0] at h; exact hopen _ h
            refine ⟨fun hn => (by rw [hc] at hn; cases hn), fun cellp hcp => ?_⟩
            have hcellp : cellp = cell := by
              rw [hc] at hcp
              injection hcp with h'
              exact h'.symm
            rw [hcellp]
            exact Or.inr ⟨hclosed, hmine, hfin, (cr, cc), List.mem_cons_self _ _,
              Reaches.refl _ ⟨cell, hc, hclosed, hmine⟩⟩
          · -- p untouched by this open step
            have hb₁p : cell? (setCell b cr cc { cell with state := CellState.«open» })
                p1 p2 = cell? b p1 p2 := by
              rw [cell?_setCell hc _ p1 p2, if_neg hp]
            by_cases h0 : cell.neighborMines = 0
            · rw [if_pos h0] at h
              have IH := ih _ _ b' h (p1, p2)
              refine ⟨fun hn => IH.1 (by rw [hb₁p]; exact hn),
                fun cellp hcp => ?_⟩
              rcases IH.2 cellp (by rw [hb₁p]; exact hcp) with h1 | ⟨h1, h2, h3, x, hx, hr⟩
              · exact Or.inl h1
              · refine Or.inr ⟨h1, h2, h3, ?_⟩
                rcases List.mem_append.1 hx with hxn | hxr
                · rw [List.mem_reverse] at hxn
                  refine ⟨(cr, cc), List.mem_cons_self _ _, ?_⟩
                  obtain ⟨hxb, hxne⟩ := mem_floodNbrs_down hc hxn
                  have hreach_x : Reaches rows cols b (cr, cc) x :=
                    Reaches.tail _ _ _ (Reaches.refl _ ⟨cell, hc, hclosed, hmine⟩)
                      ⟨cell, hc, h0⟩ hxb
                  exact hreach_x.trans (reaches_down hc hr)
                · exact ⟨x, List.mem_cons_of_mem _ hxr, reaches_down hc hr⟩
            · rw [if_neg h0] at h
              have IH := ih _ _ b' h (p1, p2)
              refine ⟨fun hn => IH.1 (by rw [hb₁p]; exact hn),
                fun cellp hcp => ?_⟩
              rcases IH.2 cellp (by rw [hb₁p]; exact hcp) with h1 | ⟨h1, h2, h3, x, hx, hr⟩
              · exact Or.inl h1
              · exact Or.inr ⟨h1, h2, h3, x, List.mem_cons_of_mem _ hx,
                  reaches_down hc hr⟩

/-! ### Flood-loop completeness: every reachable cell ends up Open -/

theorem floodLoopF_complete {rows cols : Nat} :
    ∀ (fuel : Nat) (b : Board) (stack : List (Nat × Nat)) (b' : Board),
      floodLoopF rows cols fuel b stack = some b' →
      ∀ x ∈ stack, ∀ q, Reaches rows cols b x q →
        ∃ cellq, cell? b' q.1 q.2 = some cellq ∧
          cellq.state = CellState.«open» := by
  intro fuel
  induction fuel with
  | zero =>
    intro b stack b' h
    simp [floodLoopF] at h
  | succ fuel ih =>
    intro b stack b' h x hx q hq
    cases stack with
    | nil => simp at hx
    | cons top rest =>
      obtain ⟨cr, cc⟩ := top
      cases hc : cell? b cr cc with
      | none => rw [floodLoopF_cons_none hc] at h; cases h
      | some cell =>
        rw [floodLoopF_cons_some hc] at h
        by_cases hguard : cell.state ≠ CellState.closed ∨ cell.hasMine = true
        · rw [if_pos hguard] at h
          rcases List.mem_cons.1 hx with hxe | hx'
          · -- popped-and-discarded coordinate cannot be a reach source
            subst hxe
            obtain ⟨cell', hc', hclosed', hmine'⟩ := hq.valid_src
            dsimp only at hc'
            rw [hc] at hc'
            have hcc' : cell' = cell := by injection hc' with h'; exact h'.symm
            subst hcc'
            rcases hguard with hg | hg
            · exact absurd hclosed' hg
            · rw [hmine'] at hg; cases hg
          · exact ih b rest b' h x hx' q hq
        · rw [if_neg hguard] at h
          push_neg at hguard
          obtain ⟨hclosed, hmineT⟩ := hguard
          have hmine : cell.hasMine = false := by simpa using hmineT
          have hb₁q : cell? (setCell b cr cc { cell with state := CellState.«open» })
              cr cc = some { cell with state := CellState.«open» } := by
            rw [cell?_setCell hc _ cr cc, if_pos ⟨rfl, rfl⟩]
          by_cases h0 : cell.neighborMines = 0
          · rw [if_pos h0] at h
            rcases reaches_decompose_zero hc h0 hq with hqz | hsur | ⟨n, hnmem, hnr⟩
            · -- q is the cell just opened; the frame lemma keeps it Open
              subst hqz
              have hframe := floodLoopF_frame fuel _ _ b' h (cr, cc)
              rcases hframe.2 _ hb₁q with h1 | ⟨hcl, _, _, _⟩
              · exact ⟨_, h1, rfl⟩
              · exact absurd hcl (by simp)
            · rcases List.mem_cons.1 hx with hxe | hx'
              · subst hxe
                obtain ⟨cell', hc', hclosed', _⟩ := hsur.valid_src
                dsimp only at hc'
                rw [hb₁q] at hc'
                have : cell'.state = CellState.«open» := by
                  injection hc' with h'
                  rw [← h']
                rw [hclosed'] at this
                cases this
              · exact ih _ _ b' h x (List.mem_append_right _ hx') q hsur
            · exact ih _ _ b' h n
                (List.mem_append_left _ (List.mem_reverse.2 hnmem)) q hnr
          · rw [if_neg h0] at h
            rcases reaches_decompose_nonzero hc h0 hq with hqz | hsur
            · subst hqz
              have hframe := floodLoopF_frame fuel _ _ b' h (cr, cc)
              rcases hframe.2 _ hb₁q with h1 | ⟨hcl, _, _, _⟩
              · exact ⟨_, h1, rfl⟩
              · exact absurd hcl (by simp)
            · rcases List.mem_cons.1 hx with hxe | hx'
              · subst hxe
                obtain ⟨cell', hc', hclosed', _⟩ := hsur.valid_src
                dsimp only at hc'
                rw [hb₁q] at hc'
                have : cell'.state = CellState.«open» := by
                  injection hc' with h'
                  rw [← h']
                rw [hclosed'] at this
                cases this
              · exact ih _ _ b' h x hx' q hsur

/-! ### Flood-loop fuel adequacy (termination of the JS while loop) -/

theorem floodLoopF_total {rows cols : Nat} :
    ∀ (fuel : Nat) (b : Board) (stack : List (Nat × Nat)),
      9 * closedCount b + stack.length < fuel →
      (∀ p ∈ stack, (cell? b p.1 p.2).isSome) →
      (floodLoopF rows cols fuel b stack).isSome := by
  intro fuel
  induction fuel with
  | zero =>
    intro b stack hm hstack
    exact absurd hm (by omega)
  | succ fuel ih =>
    intro b stack hm hstack
    cases stack with
    | nil => simp [floodLoopF]
    | cons top rest =>
      obtain ⟨cr, cc⟩ := top
      cases hc : cell? b cr cc with
      | none =>
        have hsome := hstack (cr, cc) (List.mem_cons_self _ _)
        dsimp only at hsome
        rw [hc] at hsome
        cases hsome
      | some cell =>
        rw [floodLoopF_cons_some hc]
        by_cases hguard : cell.state ≠ CellState.closed ∨ cell.hasMine = true
        · rw [if_pos hguard]
          apply ih b rest
          · simp only [List.length_cons] at hm
            omega
          · exact fun p hp => hstack p (List.mem_cons_of_mem _ hp)
        · rw [if_neg hguard]
          push_neg at hguard
          obtain ⟨hclosed, _⟩ := hguard
          have hcc1 := closedCount_openAt hc hclosed
          have hsome : ∀ p ∈ rest,
              (cell? (setCell b cr cc { cell with state := CellState.«open» })
                p.1 p.2).isSome := by
            intro p hp
            rw [cell?_isSome_setCell hc _ p]
            exact hstack p (List.mem_cons_of_mem _ hp)
          by_cases h0 : cell.neighborMines = 0
          · rw [if_pos h0]
            apply ih
            · have hnb := length_floodNbrs_le rows cols
                (setCell b cr cc { cell with state := CellState.«open» }) cr cc
              simp only [List.length_append, List.length_reverse,
                List.length_cons] at hm ⊢
              omega
            · intro p hp
              rcases List.mem_append.1 hp with hpn | hpr
              · rw [List.mem_reverse] at hpn
                obtain ⟨-, -, cellp, hcellp, -, -⟩ := mem_floodNbrs_elim hpn
                rw [hcellp]
                rfl
              · exact hsome p hpr
          · rw [if_neg h0]
            apply ih
            · simp only [List.length_cons] at hm
              omega
            · exact hsome

/-- The fuel chosen by `floodOpen` is always enough: the loop reaches the
empty stack (the JS `while` terminates). -/
theorem floodOpen_isSome {rows cols : Nat} {b : Board} {r c : Nat}
    (h : (cell? b r c).isSome) : (floodOpen rows cols b r c).isSome := by
  unfold floodOpen
  apply floodLoopF_total
  · simp only [List.length_cons, List.length_nil]
    omega
  · intro p hp
    simp only [List.mem_singleton] at hp
    subst hp
    exact h

/-! ### Engine helper lemmas -/

theorem cell?_mapBoard (f : Cell → Cell) (b : Board) (r c : Nat) :
    cell? (b.map fun row => row.map f) r c = (cell? b r c).map f := by
  unfold cell?
  rw [List.getElem?_map]
  cases b[r]? with
  | none => rfl
  | some row =>
    simp only [Option.map, Option.bind]
    rw [List.getElem?_map]
    cases row[c]? with
    | none => rfl
    | some cell => rfl

theorem cell?_revealAllMines (b : Board) (r c : Nat) :
    cell? (revealAllMines b) r c = (cell? b r c).map fun cell =>
      if cell.hasMine then { cell with state := CellState.«open» } else cell := by
  unfold revealAllMines
  exact cell?_mapBoard _ b r c

theorem checkWinCondition_board (g : Game) :
    (checkWinCondition g).board = g.board := by
  unfold checkWinCondition
  split <;> rfl

theorem checkWinCondition_status (g : Game) :
    (checkWinCondition g).status =
      if unopenedSafe g.board = 0 then GStatus.win else g.status := by
  unfold checkWinCondition
  split <;> simp_all

theorem openCell_terminal {g : Game} (r c : Nat)
    (h : g.status ≠ GStatus.inProgress) : openCell g r c = some g := by
  unfold openCell
  rw [if_pos h]

theorem toggleFlag_terminal {g : Game} (r c : Nat)
    (h : g.status ≠ GStatus.inProgress) : toggleFlag g r c = some g := by
  unfold toggleFlag
  rw [if_pos h]

theorem toggleFlag_status {g : Game} {r c : Nat} {g' : Game}
    (h : toggleFlag g r c = some g') : g'.status = g.status := by
  unfold toggleFlag at h
  by_cases hst : g.status ≠ GStatus.inProgress
  · rw [if_pos hst] at h
    cases h
    rfl
  · rw [if_neg hst] at h
    cases hc : cell? g.board r c with
    | none => rw [hc] at h; cases h
    | some cell =>
      rw [hc] at h
      simp only [] at h
      by_cases hopen : cell.state = CellState.«open»
      · rw [if_pos hopen] at h
        cases h
        rfl
      · rw [if_neg hopen] at h
        cases h
        rfl

theorem openCell_status {g : Game} {r c : Nat} {g' : Game}
    (h : openCell g r c = some g') :
    g'.status = g.status ∨
      (g.status = GStatus.inProgress ∧
        (g'.status = GStatus.win ∨ g'.status = GStatus.lose)) := by
  unfold openCell at h
  by_cases hst : g.status ≠ GStatus.inProgress
  · rw [if_pos hst] at h
    cases h
    exact Or.inl rfl
  · rw [if_neg hst] at h
    push_neg at hst
    cases hc : cell? g.board r c with
    | none => rw [hc] at h; cases h
    | some cell =>
      rw [hc] at h
      simp only [] at h
      by_cases hstate : cell.state ≠ CellState.closed
      · rw [if_pos hstate] at h
        cases h
        exact Or.inl rfl
      · rw [if_neg hstate] at h
        by_cases hmine : cell.hasMine = true
        · rw [if_pos hmine] at h
          cases h
          exact Or.inr ⟨hst, Or.inr rfl⟩
        · rw [if_neg hmine] at h
          by_cases hzero : cell.neighborMines = 0
          · rw [if_pos hzero] at h
            cases hfo : floodOpen g.rows g.cols g.board r c with
            | none => rw [hfo] at h; cases h
            | some b₂ =>
              rw [hfo] at h
              simp only [Option.some.injEq] at h
              subst h
              rw [checkWinCondition_status]
              by_cases hwin : unopenedSafe b₂ = 0
              · rw [if_pos hwin]
                exact Or.inr ⟨hst, Or.inl rfl⟩
              · rw [if_neg hwin]
                exact Or.inl rfl
          · rw [if_neg hzero] at h
            simp only [Option.some.injEq] at h
            subst h
            rw [checkWinCondition_status]
            by_cases hwin : unopenedSafe (setCell g.board r c
                { cell with state := CellState.«open» }) = 0
            · rw [if_pos hwin]
              exact Or.inr ⟨hst, Or.inl rfl⟩
            · rw [if_neg hwin]
              exact Or.inl rfl

/-! ### Claim C3: opening a mine loses and force-opens exactly the mines -/

/-- C3. Opening an in-bounds Closed mine cell in an in-progress game sets that
cell Open, sets `status = Lose`, and transitions every mine cell to Open
regardless of its prior Closed or Flagged state, while no non-mine cell's
state changes and no further cells are auto-opened. -/
theorem openCell_mine_spec (g : Game) (r c : Nat) (cell : Cell)
    (hst : g.status = GStatus.inProgress)
    (hc : cell? g.board r c = some cell)
    (hclosed : cell.state = CellState.closed)
    (hmine : cell.hasMine = true) :
    ∃ g', openCell g r c = some g' ∧ g'.status = GStatus.lose ∧
      ∀ (p : Nat × Nat) (cellp : Cell), cell? g.board p.1 p.2 = some cellp →
        cell? g'.board p.1 p.2 =
          some (if cellp.hasMine then { cellp with state := CellState.«open» }
                else cellp) := by
  have hoc : openCell g r c = some
      { g with
        status := GStatus.lose,
        board := revealAllMines
          (setCell g.board r c { cell with state := CellState.«open» }) } := by
    simp [openCell, hst, hc, hclosed, hmine]
  refine ⟨_, hoc, rfl, ?_⟩
  intro p cellp hcp
  show cell? (revealAllMines
      (setCell g.board r c { cell with state := CellState.«open» })) p.1 p.2 = _
  rw [cell?_revealAllMines, cell?_setCell hc _ p.1 p.2]
  by_cases hp : r = p.1 ∧ c = p.2
  · rw [if_pos hp]
    have hcell : cellp = cell := by
      rw [← hp.1, ← hp.2] at hcp
      rw [hc] at hcp
      injection hcp with h'
      exact h'.symm
    subst hcell
    simp [hmine]
  · rw [if_neg hp, hcp]
    rfl

/-- Witness for C3 at the sample fixture, clicking the mine at (0,1). -/
theorem openCell_mine_spec_witness :
    (sampleGame.status = GStatus.inProgress ∧
      cell? sampleGame.board 0 1 =
        some { hasMine := true, neighborMines := 0, state := CellState.closed } ∧
      ({ hasMine := true, neighborMines := 0, state := CellState.closed }
        : Cell).state = CellState.closed ∧
      ({ hasMine := true, neighborMines := 0, state := CellState.closed }
        : Cell).hasMine = true) ∧
    (∃ g', openCell sampleGame 0 1 = some g' ∧ g'.status = GStatus.lose ∧
      ∀ (p : Nat × Nat) (cellp : Cell),
        cell? sampleGame.board p.1 p.2 = some cellp →
        cell? g'.board p.1 p.2 =
          some (if cellp.hasMine then { cellp with state := CellState.«open» }
                else cellp)) :=
  ⟨⟨rfl, by decide, rfl, rfl⟩,
    openCell_mine_spec sampleGame 0 1
      { hasMine := true, neighborMines := 0, state := CellState.closed }
      rfl (by decide) rfl rfl⟩

/-! ### Claim C8: the flood work-list loop terminates -/

/-- C8. For every board and in-bounds seed, the flood work-list loop
terminates (the fuel `floodOpen` supplies is provably sufficient, because each
popped coordinate is either discarded — when its cell is no longer Closed or
has a mine — or opens a Closed cell, which can happen at most once per cell);
moreover no cell that is already non-Closed ever changes. -/
theorem floodOpen_terminates (rows cols : Nat) (b : Board) (r c : Nat)
    (h : (cell? b r c).isSome = true) :
    ∃ b', floodOpen rows cols b r c = some b' ∧
      ∀ (p : Nat × Nat) (cell : Cell), cell? b p.1 p.2 = some cell →
        cell.state ≠ CellState.closed → cell? b' p.1 p.2 = some cell := by
  obtain ⟨b', hb'⟩ := Option.isSome_iff_exists.1 (floodOpen_isSome h)
  refine ⟨b', hb', ?_⟩
  intro p cell hcell hstate
  unfold floodOpen at hb'
  have hframe := floodLoopF_frame _ _ _ b' hb' p
  rcases hframe.2 cell hcell with h1 | ⟨hcl, _, _, _⟩
  · exact h1
  · exact absurd hcl hstate

/-- Witness for C8 on the sample fixture from seed (2,0). -/
theorem floodOpen_terminates_witness :
    ((cell? createSampleBoard 2 0).isSome = true) ∧
    (∃ b', floodOpen 3 3 createSampleBoard 2 0 = some b' ∧
      ∀ (p : Nat × Nat) (cell : Cell), cell? createSampleBoard p.1 p.2 = some cell →
        cell.state ≠ CellState.closed → cell? b' p.1 p.2 = some cell) :=
  ⟨by decide, floodOpen_terminates 3 3 createSampleBoard 2 0 (by decide)⟩

/-! ### Claim C2: flood-reveal opens exactly the reach set -/

/-- C2. From an in-bounds Closed non-mine seed with `neighborMines = 0` in an
in-progress game, `openCell` performs the flood reveal: it never opens a mine
cell; it opens (Closed→Open, hence exactly once) precisely the cells reachable
from the seed through zero-neighbor cells plus their immediate bordering
non-mine cells (`Reaches`); and every cell outside that set is untouched —
border cells are leaves because `Reaches` only extends from zero-count cells. -/
theorem openCell_flood_spec (g : Game) (r c : Nat) (cell : Cell)
    (hst : g.status = GStatus.inProgress)
    (hc : cell? g.board r c = some cell)
    (hclosed : cell.state = CellState.closed)
    (hmine : cell.hasMine = false)
    (hzero : cell.neighborMines = 0) :
    ∃ g', openCell g r c = some g' ∧
      ∀ (p : Nat × Nat) (cellp : Cell), cell? g.board p.1 p.2 = some cellp →
        (cellp.hasMine = true → cell? g'.board p.1 p.2 = some cellp) ∧
        (Reaches g.rows g.cols g.board (r, c) p →
          cell? g'.board p.1 p.2 =
            some { cellp with state := CellState.«open» }) ∧
        (¬Reaches g.rows g.cols g.board (r, c) p →
          cell? g'.board p.1 p.2 = some cellp) := by
  obtain ⟨b', hb'⟩ := Option.isSome_iff_exists.1
    (@floodOpen_isSome g.rows g.cols g.board r c (by rw [hc]; rfl))
  have hoc : openCell g r c = some (checkWinCondition { g with board := b' }) := by
    simp [openCell, hst, hc, hclosed, hmine, hzero, hb']
  refine ⟨_, hoc, ?_⟩
  intro p cellp hcp
  have hbd : (checkWinCondition { g with board := b' }).board = b' :=
    checkWinCondition_board _
  rw [hbd]
  unfold floodOpen at hb'
  have hframe := floodLoopF_frame _ _ _ _ hb' p
  refine ⟨?_, ?_, ?_⟩
  · intro hm
    rcases hframe.2 cellp hcp with h1 | ⟨_, hmf, _, _⟩
    · exact h1
    · rw [hm] at hmf; cases hmf
  · intro hreach
    obtain ⟨cellq, hq, hqopen⟩ :=
      floodLoopF_complete _ _ _ _ hb' (r, c) (List.mem_singleton.2 rfl) p hreach
    rcases hframe.2 cellp hcp with h1 | ⟨_, _, h3, _⟩
    · -- unchanged is impossible: the reach target was Closed, but it ends Open
      obtain ⟨cellt, hct, hctc, _⟩ := hreach.valid_tgt
      rw [hcp] at hct
      have hctp : cellt = cellp := by injection hct with h'; exact h'.symm
      subst hctp
      rw [h1] at hq
      injection hq with h'
      rw [← h'] at hqopen
      rw [hctc] at hqopen
      cases hqopen
    · exact h3
  · intro hnreach
    rcases hframe.2 cellp hcp with h1 | ⟨_, _, _, x, hxmem, hxr⟩
    · exact h1
    · simp only [List.mem_singleton] at hxmem
      subst hxmem
      exact absurd hxr hnreach

/-- Witness for C2 on the sample fixture, flooding from the zero cell (2,0). -/
theorem openCell_flood_spec_witness :
    (sampleGame.status = GStatus.inProgress ∧
      cell? sampleGame.board 2 0 =
        some { hasMine := false, neighborMines := 0, state := CellState.closed } ∧
      ({ hasMine := false, neighborMines := 0, state := CellState.closed }
        : Cell).state = CellState.closed ∧
      ({ hasMine := false, neighborMines := 0, state := CellState.closed }
        : Cell).hasMine = false ∧
      ({ hasMine := false, neighborMines := 0, state := CellState.closed }
        : Cell).neighborMines = 0) ∧
    (∃ g', openCell sampleGame 2 0 = some g' ∧
      ∀ (p : Nat × Nat) (cellp : Cell),
        cell? sampleGame.board p.1 p.2 = some cellp →
        (cellp.hasMine = true → cell? g'.board p.1 p.2 = some cellp) ∧
        (Reaches sampleGame.rows sampleGame.cols sampleGame.board (2, 0) p →
          cell? g'.board p.1 p.2 =
            some { cellp with state := CellState.«open» }) ∧
        (¬Reaches sampleGame.rows sampleGame.cols sampleGame.board (2, 0) p →
          cell? g'.board p.1 p.2 = some cellp)) :=
  ⟨⟨rfl, by decide, rfl, rfl, rfl⟩,
    openCell_flood_spec sampleGame 2 0
      { hasMine := false, neighborMines := 0, state := CellState.closed }
      rfl (by decide) rfl rfl rfl⟩

/-! ### Claim C4 (corrected): guards are silent no-ops, except that an
out-of-bounds access while InProgress throws -/

/-- Counterexample to C4 as stated: on a fresh in-progress 1×1 game, calling
`open_cell(5,5)` (out of bounds) does not leave the state unchanged with no
failure — the `game.board[5][5]` access throws (modelled as `none`), and so
does `toggle_flag(5,5)`. -/
theorem openCell_oob_throws :
    openCell c4Game 5 5 = none ∧ toggleFlag c4Game 5 5 = none := by
  constructor <;> rfl

/-- C4 as amended: for a game whose status is not InProgress, `open_cell` and
`toggle_flag` are silent no-ops for any coordinates; for an in-bounds cell in
the wrong state (not Closed for open, Open for flag) they are silent no-ops as
well. (Out-of-bounds coordinates with status InProgress, excluded here, throw
a TypeError instead.) -/
theorem engine_guard_noops :
    (∀ (g : Game) (r c : Nat), g.status ≠ GStatus.inProgress →
      openCell g r c = some g ∧ toggleFlag g r c = some g) ∧
    (∀ (g : Game) (r c : Nat) (cell : Cell),
      cell? g.board r c = some cell →
      (cell.state ≠ CellState.closed → openCell g r c = some g) ∧
      (cell.state = CellState.«open» → toggleFlag g r c = some g)) := by
  constructor
  · exact fun g r c h => ⟨openCell_terminal r c h, toggleFlag_terminal r c h⟩
  · intro g r c cell hc
    constructor
    · intro hstate
      by_cases hst : g.status ≠ GStatus.inProgress
      · exact openCell_terminal r c hst
      · push_neg at hst
        simp [openCell, hst, hc, hstate]
    · intro hopen
      by_cases hst : g.status ≠ GStatus.inProgress
      · exact toggleFlag_terminal r c hst
      · push_neg at hst
        simp [toggleFlag, hst, hc, hopen]

/-- Witness for the amended C4: a won game ignores both operations, and an
in-progress game ignores `open_cell`/`toggle_flag` on an already-Open cell. -/
theorem engine_guard_noops_witness :
    (c7Game.status ≠ GStatus.inProgress ∧
      (openCell c7Game 0 0 = some c7Game ∧ toggleFlag c7Game 0 0 = some c7Game)) ∧
    (cell? openedCellGame.board 0 0 =
        some { hasMine := false, neighborMines := 0, state := CellState.«open» } ∧
      ((({ hasMine := false, neighborMines := 0, state := CellState.«open» }
          : Cell).state ≠ CellState.closed → openCell openedCellGame 0 0 = some openedCellGame) ∧
       (({ hasMine := false, neighborMines := 0, state := CellState.«open» }
          : Cell).state = CellState.«open» → toggleFlag openedCellGame 0 0 = some openedCellGame))) :=
  ⟨⟨by decide, engine_guard_noops.1 c7Game 0 0 (by decide)⟩,
    ⟨by decide, engine_guard_noops.2 openedCellGame 0 0
      { hasMine := false, neighborMines := 0, state := CellState.«open» } (by decide)⟩⟩

/-! ### Claim C5: the win check after non-losing opens; flags never touch status -/

/-- C5. After every successful non-losing `open_cell`, the win check runs:
the resulting status is Win iff the count of non-mine non-Open cells is zero,
and otherwise stays InProgress; `toggle_flag` never triggers win/loss
evaluation, so a flag toggle never changes the status. -/
theorem openCell_win_check :
    (∀ (g : Game) (r c : Nat) (cell : Cell) (g' : Game),
      g.status = GStatus.inProgress →
      cell? g.board r c = some cell →
      cell.state = CellState.closed →
      cell.hasMine = false →
      openCell g r c = some g' →
      (g'.status = GStatus.win ↔ unopenedSafe g'.board = 0) ∧
      (g'.status ≠ GStatus.win → g'.status = GStatus.inProgress)) ∧
    (∀ (g : Game) (r c : Nat) (g' : Game), toggleFlag g r c = some g' →
      g'.status = g.status) := by
  constructor
  · intro g r c cell g' hst hc hclosed hmine h
    have key : ∀ b₂ : Board, g' = checkWinCondition { g with board := b₂ } →
        (g'.status = GStatus.win ↔ unopenedSafe g'.board = 0) ∧
        (g'.status ≠ GStatus.win → g'.status = GStatus.inProgress) := by
      intro b₂ hg'
      subst hg'
      rw [checkWinCondition_status, checkWinCondition_board]
      by_cases hwin : unopenedSafe b₂ = 0
      · rw [if_pos hwin]
        exact ⟨⟨fun _ => hwin, fun _ => rfl⟩, fun hne => absurd rfl hne⟩
      · rw [if_neg hwin]
        constructor
        · constructor
          · intro hw
            rw [hst] at hw
            cases hw
          · intro h0
            exact absurd h0 hwin
        · intro _
          exact hst
    by_cases hzero : cell.neighborMines = 0
    · cases hfo : floodOpen g.rows g.cols g.board r c with
      | none =>
        rw [show openCell g r c = none by
          simp [openCell, hst, hc, hclosed, hmine, hzero, hfo]] at h
        cases h
      | some b₂ =>
        have hoc : openCell g r c = some (checkWinCondition { g with board := b₂ }) := by
          simp [openCell, hst, hc, hclosed, hmine, hzero, hfo]
        rw [hoc] at h
        injection h with h'
        exact key b₂ h'.symm
    · have hoc : openCell g r c = some (checkWinCondition
          { g with board := setCell g.board r c { cell with state := CellState.«open» } }) := by
        simp [openCell, hst, hc, hclosed, hmine, hzero]
      rw [hoc] at h
      injection h with h'
      exact key _ h'.symm
  · exact fun g r c g' h => toggleFlag_status h

/-- Witness for C5: opening the lone safe cell of the 1×1 no-mine game wins;
flagging a cell of the sample game leaves its status untouched. -/
theorem openCell_win_check_witness :
    (c4Game.status = GStatus.inProgress ∧
      cell? c4Game.board 0 0 = some (createCell false) ∧
      (createCell false).state = CellState.closed ∧
      (createCell false).hasMine = false ∧
      openCell c4Game 0 0 = some c5WonGame ∧
      (c5WonGame.status = GStatus.win ↔ unopenedSafe c5WonGame.board = 0)) ∧
    (toggleFlag sampleGame 0 0 = some c5FlagGame ∧
      c5FlagGame.status = sampleGame.status) :=
  ⟨⟨rfl, by decide, rfl, rfl, by decide,
    (openCell_win_check.1 c4Game 0 0 (createCell false) c5WonGame
      rfl (by decide) rfl rfl (by decide)).1⟩,
   by decide, openCell_win_check.2 sampleGame 0 0 c5FlagGame (by decide)⟩

/-! ### Claim C7: the status state machine -/

/-- C7. A created game starts InProgress; the only transitions `open_cell` can
make are InProgress→Win and InProgress→Lose (`toggle_flag` never changes the
status); and in a terminal status both operations leave the whole game — board
included — unchanged. -/
theorem status_state_machine :
    (∀ (rows cols mines : Nat) (picks : List (Nat × Nat)) (g : Game),
      createGame rows cols mines picks = some g →
      g.status = GStatus.inProgress) ∧
    (∀ (g : Game) (r c : Nat), g.status ≠ GStatus.inProgress →
      openCell g r c = some g ∧ toggleFlag g r c = some g) ∧
    (∀ (g : Game) (r c : Nat) (g' : Game), openCell g r c = some g' →
      g'.status = g.status ∨
        (g.status = GStatus.inProgress ∧
          (g'.status = GStatus.win ∨ g'.status = GStatus.lose))) ∧
    (∀ (g : Game) (r c : Nat) (g' : Game), toggleFlag g r c = some g' →
      g'.status = g.status) := by
  refine ⟨?_, ?_, ?_, ?_⟩
  · intro rows cols mines picks g h
    unfold createGame at h
    cases hcb : createBoard rows cols mines picks with
    | none => rw [hcb] at h; cases h
    | some b =>
      rw [hcb] at h
      simp only [Option.map] at h
      cases h
      rfl
  · exact fun g r c h => ⟨openCell_terminal r c h, toggleFlag_terminal r c h⟩
  · exact fun g r c g' h => openCell_status h
  · exact fun g r c g' h => toggleFlag_status h

/-- Witness for C7: createGame(1,1,0) starts InProgress; the won game ignores
both operations; the sample lose-click transitions InProgress→Lose; a flag
toggle preserves the status. -/
theorem status_state_machine_witness :
    (createGame 1 1 0 [] = some c4Game ∧ c4Game.status = GStatus.inProgress) ∧
    (c7Game.status ≠ GStatus.inProgress ∧
      (openCell c7Game 1 1 = some c7Game ∧ toggleFlag c7Game 1 1 = some c7Game)) ∧
    (openCell sampleGame 0 1 = some c7LoseGame ∧
      (c7LoseGame.status = sampleGame.status ∨
        (sampleGame.status = GStatus.inProgress ∧
          (c7LoseGame.status = GStatus.win ∨ c7LoseGame.status = GStatus.lose)))) ∧
    (toggleFlag sampleGame 0 0 = some c5FlagGame ∧
      c5FlagGame.status = sampleGame.status) :=
  ⟨⟨by decide, status_state_machine.1 1 1 0 [] c4Game (by decide)⟩,
   ⟨by decide, status_state_machine.2.1 c7Game 1 1 (by decide)⟩,
   ⟨by decide, status_state_machine.2.2.1 sampleGame 0 1 c7LoseGame (by decide)⟩,
   ⟨by decide, status_state_machine.2.2.2 sampleGame 0 0 c5FlagGame (by decide)⟩⟩

/-! ### Claim C9: flag toggling and the remaining-mines display value -/

/-- C9. In an in-progress game, `toggle_flag` on an in-bounds cell maps Closed
to Flagged and Flagged to Closed and leaves an Open cell (and the rest of the
game) unchanged; and the derived remaining-mines value is always
`max(0, mines - flaggedCount)`, hence never negative, even when flags exceed
the mine count. -/
theorem toggleFlag_spec :
    (∀ (g : Game) (r c : Nat) (cell : Cell),
      g.status = GStatus.inProgress → cell? g.board r c = some cell →
      (cell.state = CellState.closed →
        toggleFlag g r c =
          some { g with board := setCell g.board r c { cell with state := CellState.flagged } }) ∧
      (cell.state = CellState.flagged →
        toggleFlag g r c =
          some { g with board := setCell g.board r c { cell with state := CellState.closed } }) ∧
      (cell.state = CellState.«open» → toggleFlag g r c = some g)) ∧
    (∀ g : Game,
      remainingMines g = max 0 ((g.mines : Int) - (getFlagCount g : Int)) ∧
      0 ≤ remainingMines g) := by
  constructor
  · intro g r c cell hst hc
    refine ⟨?_, ?_, ?_⟩
    · intro hclosed
      simp [toggleFlag, hst, hc, hclosed]
    · intro hflagged
      simp [toggleFlag, hst, hc, hflagged]
    · intro hopen
      simp [toggleFlag, hst, hc, hopen]
  · intro g
    exact ⟨rfl, le_max_left 0 _⟩

/-- Witness for C9: flagging Closed (0,0) in the sample game, unflagging the
Flagged (2,2) of the flagged fixture, a no-op on the Open 1×1 cell; the
remaining-mines value of the flagged fixture. -/
theorem toggleFlag_spec_witness :
    (sampleGame.status = GStatus.inProgress ∧
      cell? sampleGame.board 0 0 =
        some { hasMine := false, neighborMines := 1, state := CellState.closed } ∧
      (({ hasMine := false, neighborMines := 1, state := CellState.closed }
        : Cell).state = CellState.closed →
        toggleFlag sampleGame 0 0 =
          some { sampleGame with board := setCell sampleGame.board 0 0 { hasMine := false, neighborMines := 1, state := CellState.flagged } })) ∧
    (flaggedCellGame.status = GStatus.inProgress ∧
      cell? flaggedCellGame.board 2 2 =
        some { hasMine := false, neighborMines := 1, state := CellState.flagged } ∧
      (({ hasMine := false, neighborMines := 1, state := CellState.flagged }
        : Cell).state = CellState.flagged →
        toggleFlag flaggedCellGame 2 2 =
          some { flaggedCellGame with board := setCell flaggedCellGame.board 2 2 { hasMine := false, neighborMines := 1, state := CellState.closed } })) ∧
    (openedCellGame.status = GStatus.inProgress ∧
      (({ hasMine := false, neighborMines := 0, state := CellState.«open» }
        : Cell).state = CellState.«open» →
        toggleFlag openedCellGame 0 0 = some openedCellGame)) ∧
    (remainingMines flaggedCellGame =
        max 0 ((flaggedCellGame.mines : Int) - (getFlagCount flaggedCellGame : Int)) ∧
      0 ≤ remainingMines flaggedCellGame) :=
  ⟨⟨rfl, by decide,
    (toggleFlag_spec.1 sampleGame 0 0
      { hasMine := false, neighborMines := 1, state := CellState.closed }
      rfl (by decide)).1⟩,
   ⟨rfl, by decide,
    (toggleFlag_spec.1 flaggedCellGame 2 2
      { hasMine := false, neighborMines := 1, state := CellState.flagged }
      rfl (by decide)).2.1⟩,
   ⟨rfl,
    (toggleFlag_spec.1 openedCellGame 0 0
      { hasMine := false, neighborMines := 0, state := CellState.«open» }
      rfl (by decide)).2.2⟩,
   toggleFlag_spec.2 flaggedCellGame⟩

/-! ### Claim C10: open_cell never disturbs Flagged non-mine cells, and
flag-blocked regions stay Closed -/

/-- C10. `open_cell` never changes the state of a Flagged non-mine cell (the
flood loop skips popped cells that are not Closed and only pushes Closed
neighbours), so a Flagged zero-neighbor cell stays Flagged; and any Closed
non-mine cell that is not flood-reachable from the seed — in particular a
zero-neighbor cell all of whose zero-paths from the seed pass through the
Flagged cell — stays Closed (unless it is the clicked cell itself). -/
theorem openCell_flagged_frame :
    (∀ (g : Game) (r c : Nat) (g' : Game) (p : Nat × Nat) (cellp : Cell),
      openCell g r c = some g' →
      cell? g.board p.1 p.2 = some cellp →
      cellp.state = CellState.flagged → cellp.hasMine = false →
      cell? g'.board p.1 p.2 = some cellp) ∧
    (∀ (g : Game) (r c : Nat) (g' : Game) (p : Nat × Nat) (cellp : Cell),
      openCell g r c = some g' →
      cell? g.board p.1 p.2 = some cellp →
      cellp.state = CellState.closed → cellp.hasMine = false →
      p ≠ (r, c) → ¬Reaches g.rows g.cols g.board (r, c) p →
      cell? g'.board p.1 p.2 = some cellp) := by
  have main : ∀ (g : Game) (r c : Nat) (g' : Game) (p : Nat × Nat) (cellp : Cell),
      openCell g r c = some g' →
      cell? g.board p.1 p.2 = some cellp →
      cellp.hasMine = false →
      (cellp.state = CellState.flagged ∨
        (cellp.state = CellState.closed ∧ p ≠ (r, c) ∧
          ¬Reaches g.rows g.cols g.board (r, c) p)) →
      cell? g'.board p.1 p.2 = some cellp := by
    intro g r c g' p cellp h hcp hmp hcase
    unfold openCell at h
    by_cases hst : g.status ≠ GStatus.inProgress
    · rw [if_pos hst] at h
      cases h
      exact hcp
    · rw [if_neg hst] at h
      cases hc : cell? g.board r c with
      | none => rw [hc] at h; cases h
      | some cell =>
        rw [hc] at h
        simp only [] at h
        by_cases hstate : cell.state ≠ CellState.closed
        · rw [if_pos hstate] at h
          cases h
          exact hcp
        · rw [if_neg hstate] at h
          push_neg at hstate
          have hpne : ¬(r = p.1 ∧ c = p.2) := by
            intro hhit
            rw [← hhit.1, ← hhit.2] at hcp
            rw [hc] at hcp
            injection hcp with h'
            rcases hcase with hflag | ⟨hclosedp, hpne, _⟩
            · rw [← h', hstate] at hflag
              cases hflag
            · exact hpne (by
                cases p
                simp only [Prod.mk.injEq]
                exact ⟨hhit.1.symm, hhit.2.symm⟩)
          by_cases hmine : cell.hasMine = true
          · rw [if_pos hmine] at h
            cases h
            show cell? (revealAllMines
              (setCell g.board r c { cell with state := CellState.«open» })) p.1 p.2 = _
            rw [cell?_revealAllMines, cell?_setCell hc _ p.1 p.2, if_neg hpne, hcp]
            simp [hmp]
          · rw [if_neg hmine] at h
            by_cases hzero : cell.neighborMines = 0
            · rw [if_pos hzero] at h
              cases hfo : floodOpen g.rows g.cols g.board r c with
              | none => rw [hfo] at h; cases h
              | some b₂ =>
                rw [hfo] at h
                simp only [Option.some.injEq] at h
                subst h
                rw [checkWinCondition_board]
                unfold floodOpen at hfo
                have hframe := floodLoopF_frame _ _ _ _ hfo p
                rcases hframe.2 cellp hcp with h1 | ⟨hcl, _, _, x, hxmem, hxr⟩
                · exact h1
                · rcases hcase with hflag | ⟨_, _, hnreach⟩
                  · rw [hcl] at hflag
                    cases hflag
                  · simp only [List.mem_singleton] at hxmem
                    subst hxmem
                    exact absurd hxr hnreach
            · rw [if_neg hzero] at h
              simp only [Option.some.injEq] at h
              subst h
              rw [checkWinCondition_board]
              show cell? (setCell g.board r c
                { cell with state := CellState.«open» }) p.1 p.2 = _
              rw [cell?_setCell hc _ p.1 p.2, if_neg hpne]
              exact hcp
  constructor
  · intro g r c g' p cellp h hcp hflag hmp
    exact main g r c g' p cellp h hcp hmp (Or.inl hflag)
  · intro g r c g' p cellp h hcp hclosedp hmp hpne hnreach
    exact main g r c g' p cellp h hcp hmp (Or.inr ⟨hclosedp, hpne, hnreach⟩)

/-- Witness for C10 on the flagged fixture: flooding from (2,0) leaves the
Flagged non-mine cell (2,2) Flagged, and leaves the unreachable Closed
non-mine cell (0,2) Closed. -/
theorem openCell_flagged_frame_witness :
    (openCell flaggedCellGame 2 0 = some c10ResultGame ∧
      cell? flaggedCellGame.board 2 2 =
        some { hasMine := false, neighborMines := 1, state := CellState.flagged } ∧
      cell? c10ResultGame.board 2 2 =
        some { hasMine := false, neighborMines := 1, state := CellState.flagged }) ∧
    (cell? flaggedCellGame.board 0 2 =
        some { hasMine := false, neighborMines := 2, state := CellState.closed } ∧
      ¬Reaches flaggedCellGame.rows flaggedCellGame.cols flaggedCellGame.board
        (2, 0) (0, 2) ∧
      cell? c10ResultGame.board 0 2 =
        some { hasMine := false, neighborMines := 2, state := CellState.closed }) := by
  have hnr : ¬Reaches flaggedCellGame.rows flaggedCellGame.cols
      flaggedCellGame.board (2, 0) (0, 2) := by
    intro hr
    obtain ⟨cellq, hq, hqopen⟩ := floodLoopF_complete
      (9 * closedCount flaggedCellGame.board + 2) flaggedCellGame.board
      [(2, 0)] c10Board (by decide) (2, 0) (List.mem_singleton.2 rfl) (0, 2) hr
    have hq' : cell? c10Board 0 2 =
        some { hasMine := false, neighborMines := 2, state := CellState.closed } := by
      decide
    rw [hq'] at hq
    injection hq with h'
    rw [← h'] at hqopen
    cases hqopen
  refine ⟨⟨by decide, by decide,
      openCell_flagged_frame.1 flaggedCellGame 2 0 c10ResultGame (2, 2)
        { hasMine := false, neighborMines := 1, state := CellState.flagged }
        (by decide) (by decide) rfl rfl⟩,
    by decide, hnr,
      openCell_flagged_frame.2 flaggedCellGame 2 0 c10ResultGame (0, 2)
        { hasMine := false, neighborMines := 2, state := CellState.closed }
        (by decide) (by decide) rfl rfl (by decide) hnr⟩

end Minesweeper
